import Mathlib

/-!
Verification of the soynode template-compiler core against its source.

The development shallowly embeds the relevant parts of the JavaScript
source (src/SoyCompiler.js, src/SoyOptions.js, the SoyVmContext module and
the module-level support-file cache) as pure Lean functions over explicit
state, and proves the behavioural properties claimed of them.

Modelling conventions:
* the filesystem is a map from path strings to optional file contents;
* asynchronous promise chains are modelled by sequential state passing,
  following Node's single-threaded event-loop semantics;
* `Date.now()` timestamps are natural numbers (milliseconds);
* fallible operations return `Option`/`Except` or carry an explicit
  success flag.
-/

namespace Soynode

/-! ## Paths and locale handling (src/SoyCompiler.js) -/

/-- The key in `vmContexts` for the default vm context (no locale). -/
def DEFAULT_VM_CONTEXT : String := "default"

/-- `SoyCompiler.prototype._getOutputFile`: the output path of the compiled
artifact of `file` under `outputDir` for vm type `vmType`.  The per-locale
path segment is present only when more than one locale is configured.
`path.join` is modelled as string concatenation with a slash. -/
def getOutputFile (locales : List String) (outputDir file vmType : String) : String :=
  if locales.length > 1 then outputDir ++ "/" ++ vmType ++ "/" ++ file ++ ".js"
  else outputDir ++ "/" ++ file ++ ".js"

/-- The vm types iterated by the compiler: the configured locales, or the
single default vm context when no locale is configured (this computation
appears in both `_compileTemplateFilesAsync` and `_maybeUsePrecompiledFiles`). -/
def vmTypesOf (locales : List String) : List String :=
  if locales.length > 0 then locales else [DEFAULT_VM_CONTEXT]

/-! ## Filesystem model -/

/-- A filesystem: path → optional byte content (file contents as strings).
`fs.stat` succeeding at `p` is modelled by `(content p).isSome`. -/
structure SoyFS where
  content : String → Option String

/-- Writing `c` at path `p` (the effect of `copy` in src/copy.js, together
with the preceding `fs.mkdirs`). -/
def writeFS (fs : SoyFS) (p c : String) : SoyFS :=
  ⟨fun q => if q = p then some c else fs.content q⟩

/-! ## Precompiled-artifact cache
(`SoyCompiler.prototype._preparePrecompiledFile` and
`SoyCompiler.prototype._maybeUsePrecompiledFiles`)

`copyFails p = true` models the copy (or `mkdirs`) into target path `p`
rejecting.  A rejected promise is modelled by the `Option Bool` result
being `none`; note that in the source the rejection handler
`() => false` is attached only to `fs.stat`, so a failed copy rejects the
whole per-file promise rather than yielding `false`. -/

/-- One `(file, vmType)` check of `_preparePrecompiledFile`: stat the
precompiled artifact; absent ⇒ `some false`; present and paths equal ⇒
`some true` with no copy; present and paths differ ⇒ copy it into the
output path (`none` if the copy rejects). -/
def prepareOneLocale (locales : List String) (copyFails : String → Bool)
    (outputDir precompiledDir file vmType : String) (fs : SoyFS) :
    Option Bool × SoyFS :=
  let precompiledFileName := getOutputFile locales precompiledDir file vmType
  let outputFileName := getOutputFile locales outputDir file vmType
  match fs.content precompiledFileName with
  | none => (some false, fs)
  | some c =>
    if outputFileName = precompiledFileName then (some true, fs)
    else if copyFails outputFileName then (none, fs)
    else (some true, writeFS fs outputFileName c)

/-- `SoyCompiler.prototype._preparePrecompiledFile`: the `Q.all` over all
vm types followed by `array.every(Boolean)`.  All vm types are processed
(matching `Q.all` starting every promise); a rejection in any of them makes
the overall result `none`. -/
def preparePrecompiledFile (locales : List String) (copyFails : String → Bool)
    (outputDir precompiledDir file : String) :
    List String → SoyFS → Option Bool × SoyFS
  | [], fs => (some true, fs)
  | vmType :: rest, fs =>
    let r1 := prepareOneLocale locales copyFails outputDir precompiledDir file vmType fs
    let r2 := preparePrecompiledFile locales copyFails outputDir precompiledDir file rest r1.2
    ((match r1.1, r2.1 with
      | some b1, some b2 => some (b1 && b2)
      | _, _ => none), r2.2)

/-- The `files.map(file => self._preparePrecompiledFile(...).then(ok => ok ? '' : file))`
scan inside `_maybeUsePrecompiledFiles`: per file, `some ""` when the file is
fully precompiled, `some file` when some locale artifact is missing, `none`
when the per-file promise rejected. -/
def scanFiles (locales : List String) (copyFails : String → Bool)
    (outputDir precompiledDir : String) (vmTypes : List String) :
    List String → SoyFS → List (Option String) × SoyFS
  | [], fs => ([], fs)
  | file :: rest, fs =>
    let r1 := preparePrecompiledFile locales copyFails outputDir precompiledDir file vmTypes fs
    let res : Option String := r1.1.map (fun ok => if ok then "" else file)
    let r2 := scanFiles locales copyFails outputDir precompiledDir vmTypes rest r1.2
    (res :: r2.1, r2.2)

/-- `SoyCompiler.prototype._maybeUsePrecompiledFiles`: with no precompiled
directory all files are dirty (fast path); otherwise scan every file, and on
any rejection the `.fail` handler returns the whole original file list;
otherwise keep the non-empty strings (`dirtyFiles.filter(Boolean)`). -/
def maybeUsePrecompiledFiles (locales : List String) (copyFails : String → Bool)
    (precompiledDir : Option String) (outputDir : String)
    (files : List String) (fs : SoyFS) : List String × SoyFS :=
  match precompiledDir with
  | none => (files, fs)
  | some pd =>
    let vmTypes := vmTypesOf locales
    let scanned := scanFiles locales copyFails outputDir pd vmTypes files fs
    if scanned.1.contains none then (files, scanned.2)
    else ((scanned.1.filterMap id).filter (fun s => s != ""), scanned.2)

/-! ### Generic list helpers -/

theorem listAllCongr (l : List α) (f g : α → Bool) (h : ∀ a ∈ l, f a = g a) :
    l.all f = l.all g := by
  induction l with
  | nil => rfl
  | cons a t ih =>
    simp only [List.all_cons, h a (List.mem_cons_self a t),
      ih (fun x hx => h x (List.mem_cons_of_mem _ hx))]

theorem listMapCongr (l : List α) (f g : α → β) (h : ∀ a ∈ l, f a = g a) :
    l.map f = l.map g := by
  induction l with
  | nil => rfl
  | cons a t ih =>
    simp only [List.map_cons, h a (List.mem_cons_self a t),
      ih (fun x hx => h x (List.mem_cons_of_mem _ hx))]

theorem listFilterCongr (l : List α) (f g : α → Bool) (h : ∀ a ∈ l, f a = g a) :
    l.filter f = l.filter g := by
  induction l with
  | nil => rfl
  | cons a t ih =>
    simp only [List.filter_cons, h a (List.mem_cons_self a t),
      ih (fun x hx => h x (List.mem_cons_of_mem _ hx))]

theorem mapSomeNotContainsNone [BEq β] (l : List α) (g : α → β) :
    (l.map (fun a => some (g a))).contains none = false := by
  induction l with
  | nil => rfl
  | cons a t ih => simpa using ih

theorem anyIsNoneEqNotAllIsSome (l : List α) (x : α → Option β) :
    (l.any fun a => (x a).isNone) = !(l.all fun a => (x a).isSome) := by
  induction l with
  | nil => rfl
  | cons a t ih =>
    cases h : x a <;>
      simp [List.any_cons, List.all_cons, h, ih]

/-! ### Properties of the per-locale preparation step -/

theorem prepareOneLocale_fst (locales : List String) (copyFails : String → Bool)
    (outputDir precompiledDir file vmType : String) (fs : SoyFS)
    (hnf : copyFails (getOutputFile locales outputDir file vmType) = false) :
    (prepareOneLocale locales copyFails outputDir precompiledDir file vmType fs).1
      = some (fs.content (getOutputFile locales precompiledDir file vmType)).isSome := by
  unfold prepareOneLocale
  cases h : fs.content (getOutputFile locales precompiledDir file vmType) with
  | none => simp [h]
  | some c =>
    simp only [h, hnf]
    split <;> simp

theorem prepareOneLocale_content (locales : List String) (copyFails : String → Bool)
    (outputDir precompiledDir file vmType : String) (fs : SoyFS) (p : String)
    (hp : getOutputFile locales outputDir file vmType
            = getOutputFile locales precompiledDir file vmType
          ∨ p ≠ getOutputFile locales outputDir file vmType) :
    ((prepareOneLocale locales copyFails outputDir precompiledDir file vmType fs).2).content p
      = fs.content p := by
  unfold prepareOneLocale
  cases h : fs.content (getOutputFile locales precompiledDir file vmType) with
  | none => simp [h]
  | some c =>
    by_cases heq : getOutputFile locales outputDir file vmType
        = getOutputFile locales precompiledDir file vmType
    · simp [h, heq]
    · rcases hp with hp | hp
      · exact absurd hp heq
      · by_cases hcf : copyFails (getOutputFile locales outputDir file vmType)
        · simp [h, heq, hcf]
        · simp [h, heq, hcf, writeFS, hp]

theorem prepareOneLocale_out (locales : List String) (copyFails : String → Bool)
    (outputDir precompiledDir file vmType : String) (fs : SoyFS)
    (hnf : copyFails (getOutputFile locales outputDir file vmType) = false)
    (hs : (fs.content (getOutputFile locales precompiledDir file vmType)).isSome = true) :
    ((prepareOneLocale locales copyFails outputDir precompiledDir file vmType fs).2).content
        (getOutputFile locales outputDir file vmType)
      = fs.content (getOutputFile locales precompiledDir file vmType) := by
  obtain ⟨c, h⟩ := Option.isSome_iff_exists.mp hs
  unfold prepareOneLocale
  by_cases heq : getOutputFile locales outputDir file vmType
      = getOutputFile locales precompiledDir file vmType
  · simp only [h, heq]
    exact h
  · simp [h, heq, hnf, writeFS]

/-! ### Properties of the per-file preparation (all locales) -/

theorem preparePrecompiledFile_content (locales : List String) (copyFails : String → Bool)
    (outputDir precompiledDir file : String) (vmTypes : List String) (fs : SoyFS) (p : String)
    (hp : ∀ vm ∈ vmTypes,
      getOutputFile locales outputDir file vm = getOutputFile locales precompiledDir file vm
      ∨ p ≠ getOutputFile locales outputDir file vm) :
    ((preparePrecompiledFile locales copyFails outputDir precompiledDir file vmTypes fs).2).content p
      = fs.content p := by
  induction vmTypes generalizing fs with
  | nil => rfl
  | cons vm rest ih =>
    simp only [preparePrecompiledFile]
    rw [ih _ (fun v hv => hp v (List.mem_cons_of_mem _ hv)),
      prepareOneLocale_content locales copyFails outputDir precompiledDir file vm fs p
        (hp vm (List.mem_cons_self _ _))]

theorem preparePrecompiledFile_fst (locales : List String) (copyFails : String → Bool)
    (outputDir precompiledDir file : String) (vmTypes : List String) (fs : SoyFS)
    (hnf : ∀ vm ∈ vmTypes, copyFails (getOutputFile locales outputDir file vm) = false)
    (hsafe : ∀ vm ∈ vmTypes, ∀ vm' ∈ vmTypes,
      getOutputFile locales outputDir file vm' = getOutputFile locales precompiledDir file vm
      → vm' = vm) :
    (preparePrecompiledFile locales copyFails outputDir precompiledDir file vmTypes fs).1
      = some (vmTypes.all fun vm =>
          (fs.content (getOutputFile locales precompiledDir file vm)).isSome) := by
  induction vmTypes generalizing fs with
  | nil => rfl
  | cons vm rest ih =>
    have hpres : ∀ v ∈ rest,
        ((prepareOneLocale locales copyFails outputDir precompiledDir file vm fs).2).content
            (getOutputFile locales precompiledDir file v)
          = fs.content (getOutputFile locales precompiledDir file v) := by
      intro v hv
      apply prepareOneLocale_content
      by_cases h : getOutputFile locales precompiledDir file v
          = getOutputFile locales outputDir file vm
      · left
        have hv2 : vm = v :=
          hsafe v (List.mem_cons_of_mem _ hv) vm (List.mem_cons_self _ _) h.symm
        exact hv2.symm ▸ h.symm
      · right
        exact h
    simp only [preparePrecompiledFile]
    rw [prepareOneLocale_fst locales copyFails outputDir precompiledDir file vm fs
        (hnf vm (List.mem_cons_self _ _)),
      ih _ (fun v hv => hnf v (List.mem_cons_of_mem _ hv))
        (fun v hv v' hv' => hsafe v (List.mem_cons_of_mem _ hv) v' (List.mem_cons_of_mem _ hv')),
      listAllCongr rest _ _ (fun v hv => by rw [hpres v hv])]
    simp [List.all_cons]

theorem preparePrecompiledFile_out (locales : List String) (copyFails : String → Bool)
    (outputDir precompiledDir file : String) (vmTypes : List String) (fs : SoyFS)
    (hnd : vmTypes.Nodup)
    (hnf : ∀ vm ∈ vmTypes, copyFails (getOutputFile locales outputDir file vm) = false)
    (hsafe : ∀ vm ∈ vmTypes, ∀ vm' ∈ vmTypes,
      getOutputFile locales outputDir file vm' = getOutputFile locales precompiledDir file vm
      → vm' = vm)
    (hinj : ∀ vm ∈ vmTypes, ∀ vm' ∈ vmTypes,
      getOutputFile locales outputDir file vm' = getOutputFile locales outputDir file vm
      → vm' = vm)
    (hall : ∀ vm ∈ vmTypes,
      (fs.content (getOutputFile locales precompiledDir file vm)).isSome = true) :
    ∀ vm ∈ vmTypes,
      ((preparePrecompiledFile locales copyFails outputDir precompiledDir file vmTypes fs).2).content
          (getOutputFile locales outputDir file vm)
        = fs.content (getOutputFile locales precompiledDir file vm) := by
  induction vmTypes generalizing fs with
  | nil => intro vm hvm; cases hvm
  | cons v rest ih =>
    have hvnotin : v ∉ rest := (List.nodup_cons.mp hnd).1
    have hndr : rest.Nodup := (List.nodup_cons.mp hnd).2
    have hpres : ∀ u ∈ rest,
        ((prepareOneLocale locales copyFails outputDir precompiledDir file v fs).2).content
            (getOutputFile locales precompiledDir file u)
          = fs.content (getOutputFile locales precompiledDir file u) := by
      intro u hu
      apply prepareOneLocale_content
      by_cases h : getOutputFile locales precompiledDir file u
          = getOutputFile locales outputDir file v
      · have := hsafe u (List.mem_cons_of_mem _ hu) v (List.mem_cons_self _ _) h.symm
        exact absurd (this ▸ hu) hvnotin
      · right
        exact h
    intro vm hvm
    rcases List.mem_cons.mp hvm with rfl | hvm
    · -- head locale: its own copy establishes the content, the rest preserve it
      simp only [preparePrecompiledFile]
      rw [preparePrecompiledFile_content locales copyFails outputDir precompiledDir file rest _ _
          (by
            intro u hu
            by_cases h : getOutputFile locales outputDir file vm
                = getOutputFile locales outputDir file u
            · have := hinj u (List.mem_cons_of_mem _ hu) vm (List.mem_cons_self _ _) h
              exact absurd (this ▸ hu) hvnotin
            · right
              exact h),
        prepareOneLocale_out locales copyFails outputDir precompiledDir file vm fs
          (hnf vm (List.mem_cons_self _ _)) (hall vm (List.mem_cons_self _ _))]
    · -- a later locale: step over the head then use the induction hypothesis
      simp only [preparePrecompiledFile]
      rw [ih _ hndr (fun u hu => hnf u (List.mem_cons_of_mem _ hu))
          (fun u hu u' hu' => hsafe u (List.mem_cons_of_mem _ hu) u' (List.mem_cons_of_mem _ hu'))
          (fun u hu u' hu' => hinj u (List.mem_cons_of_mem _ hu) u' (List.mem_cons_of_mem _ hu'))
          (fun u hu => by rw [hpres u hu]; exact hall u (List.mem_cons_of_mem _ hu))
          vm hvm,
        hpres vm hvm]

/-! ### Properties of the whole-batch scan -/

theorem scanFiles_content (locales : List String) (copyFails : String → Bool)
    (outputDir precompiledDir : String) (vmTypes : List String)
    (files : List String) (fs : SoyFS) (p : String)
    (hp : ∀ g ∈ files, ∀ vm ∈ vmTypes,
      getOutputFile locales outputDir g vm = getOutputFile locales precompiledDir g vm
      ∨ p ≠ getOutputFile locales outputDir g vm) :
    ((scanFiles locales copyFails outputDir precompiledDir vmTypes files fs).2).content p
      = fs.content p := by
  induction files generalizing fs with
  | nil => rfl
  | cons g rest ih =>
    simp only [scanFiles]
    rw [ih _ (fun x hx vm hvm => hp x (List.mem_cons_of_mem _ hx) vm hvm),
      preparePrecompiledFile_content locales copyFails outputDir precompiledDir g vmTypes fs p
        (hp g (List.mem_cons_self _ _))]

theorem scanFiles_results (locales : List String) (copyFails : String → Bool)
    (outputDir precompiledDir : String) (vmTypes : List String)
    (files : List String) (fs : SoyFS)
    (hnf : ∀ p, copyFails p = false)
    (hndf : files.Nodup)
    (hsep : ∀ f ∈ files, ∀ vm ∈ vmTypes, ∀ g ∈ files, ∀ vm' ∈ vmTypes,
      getOutputFile locales outputDir g vm' = getOutputFile locales precompiledDir f vm
      → g = f ∧ vm' = vm) :
    (scanFiles locales copyFails outputDir precompiledDir vmTypes files fs).1
      = files.map (fun f => some (if vmTypes.all
          (fun vm => (fs.content (getOutputFile locales precompiledDir f vm)).isSome)
        then "" else f)) := by
  induction files generalizing fs with
  | nil => rfl
  | cons g rest ih =>
    have hgnotin : g ∉ rest := (List.nodup_cons.mp hndf).1
    have hpres : ∀ x ∈ rest, ∀ vm ∈ vmTypes,
        ((preparePrecompiledFile locales copyFails outputDir precompiledDir g vmTypes fs).2).content
            (getOutputFile locales precompiledDir x vm)
          = fs.content (getOutputFile locales precompiledDir x vm) := by
      intro x hx vm hvm
      apply preparePrecompiledFile_content
      intro u hu
      by_cases h : getOutputFile locales precompiledDir x vm
          = getOutputFile locales outputDir g u
      · have := hsep x (List.mem_cons_of_mem _ hx) vm hvm g (List.mem_cons_self _ _) u hu h.symm
        exact absurd (this.1 ▸ hx) hgnotin
      · right
        exact h
    simp only [scanFiles]
    rw [preparePrecompiledFile_fst locales copyFails outputDir precompiledDir g vmTypes fs
        (fun vm _ => hnf _)
        (fun vm hvm vm' hvm' h =>
          (hsep g (List.mem_cons_self _ _) vm hvm g (List.mem_cons_self _ _) vm' hvm' h).2),
      ih _ ((List.nodup_cons.mp hndf).2)
        (fun f hf vm hvm g' hg' vm' hvm' =>
          hsep f (List.mem_cons_of_mem _ hf) vm hvm g' (List.mem_cons_of_mem _ hg') vm' hvm'),
      listMapCongr rest _ _ (fun x hx => by
        rw [listAllCongr _ _ _ (fun vm hvm => by rw [hpres x hx vm hvm])])]
    simp

theorem scanFiles_out (locales : List String) (copyFails : String → Bool)
    (outputDir precompiledDir : String) (vmTypes : List String)
    (files : List String) (fs : SoyFS)
    (hnf : ∀ p, copyFails p = false)
    (hndf : files.Nodup) (hndv : vmTypes.Nodup)
    (hsep : ∀ f ∈ files, ∀ vm ∈ vmTypes, ∀ g ∈ files, ∀ vm' ∈ vmTypes,
      getOutputFile locales outputDir g vm' = getOutputFile locales precompiledDir f vm
      → g = f ∧ vm' = vm)
    (hinj : ∀ f ∈ files, ∀ vm ∈ vmTypes, ∀ g ∈ files, ∀ vm' ∈ vmTypes,
      getOutputFile locales outputDir g vm' = getOutputFile locales outputDir f vm
      → g = f ∧ vm' = vm) :
    ∀ f ∈ files,
      (∀ vm ∈ vmTypes,
        (fs.content (getOutputFile locales precompiledDir f vm)).isSome = true) →
      ∀ vm ∈ vmTypes,
        ((scanFiles locales copyFails outputDir precompiledDir vmTypes files fs).2).content
            (getOutputFile locales outputDir f vm)
          = fs.content (getOutputFile locales precompiledDir f vm) := by
  induction files generalizing fs with
  | nil => intro f hf; cases hf
  | cons g rest ih =>
    have hgnotin : g ∉ rest := (List.nodup_cons.mp hndf).1
    have hpres : ∀ x ∈ rest, ∀ vm ∈ vmTypes,
        ((preparePrecompiledFile locales copyFails outputDir precompiledDir g vmTypes fs).2).content
            (getOutputFile locales precompiledDir x vm)
          = fs.content (getOutputFile locales precompiledDir x vm) := by
      intro x hx vm hvm
      apply preparePrecompiledFile_content
      intro u hu
      by_cases h : getOutputFile locales precompiledDir x vm
          = getOutputFile locales outputDir g u
      · have := hsep x (List.mem_cons_of_mem _ hx) vm hvm g (List.mem_cons_self _ _) u hu h.symm
        exact absurd (this.1 ▸ hx) hgnotin
      · right
        exact h
    intro f hf hsat vm hvm
    rcases List.mem_cons.mp hf with rfl | hf
    · -- f is the head file: its own preparation establishes the copy,
      -- the remaining files of the batch never touch its output paths
      simp only [scanFiles]
      rw [scanFiles_content locales copyFails outputDir precompiledDir vmTypes rest _ _
          (by
            intro x hx u hu
            by_cases h : getOutputFile locales outputDir f vm
                = getOutputFile locales outputDir x u
            · have := hinj f (List.mem_cons_self _ _) vm hvm x (List.mem_cons_of_mem _ hx) u hu h.symm
              exact absurd (this.1 ▸ hx) hgnotin
            · right
              exact h),
        preparePrecompiledFile_out locales copyFails outputDir precompiledDir f vmTypes fs hndv
          (fun u _ => hnf _)
          (fun u hu u' hu' h =>
            (hsep f (List.mem_cons_self _ _) u hu f (List.mem_cons_self _ _) u' hu' h).2)
          (fun u hu u' hu' h =>
            (hinj f (List.mem_cons_self _ _) u hu f (List.mem_cons_self _ _) u' hu' h).2)
          hsat vm hvm]
    · -- f is a later file: step over the head file and use the induction hypothesis
      simp only [scanFiles]
      rw [ih _ ((List.nodup_cons.mp hndf).2)
          (fun x hx u hu y hy u' hu' =>
            hsep x (List.mem_cons_of_mem _ hx) u hu y (List.mem_cons_of_mem _ hy) u' hu')
          (fun x hx u hu y hy u' hu' =>
            hinj x (List.mem_cons_of_mem _ hx) u hu y (List.mem_cons_of_mem _ hy) u' hu')
          f hf
          (fun u hu => by rw [hpres f hf u hu]; exact hsat u hu)
          vm hvm,
        hpres f hf vm hvm]

theorem filterMapIdMapSome (l : List α) (g : α → β) :
    (l.map (fun a => some (g a))).filterMap id = l.map g := by
  induction l with
  | nil => rfl
  | cons a t ih => simp [ih]

/-- The filter massage performed by `_maybeUsePrecompiledFiles` on the scan
results: mapping satisfied files to `""` and filtering the empty strings out
is the same as filtering the original list by dissatisfaction. -/
theorem filterIfMask (files : List String) (c : String → Bool)
    (hempty : "" ∉ files) :
    (files.map (fun f => if c f then "" else f)).filter (fun s => s != "")
      = files.filter (fun f => !(c f)) := by
  induction files with
  | nil => rfl
  | cons g rest ih =>
    have hg : g ≠ "" := fun h => hempty (h ▸ List.mem_cons_self _ _)
    have hrest : "" ∉ rest := fun h => hempty (List.mem_cons_of_mem _ h)
    by_cases hc : c g
    · simp [hc, ih hrest, List.filter_cons]
    · simp [hc, ih hrest, List.filter_cons, hg]

/-- C1: for every file set and configured locale set (the unlocalized default
counting as one locale), with a precompiled root configured and no copy
failures, `_maybeUsePrecompiledFiles` returns exactly the files for which at
least one locale artifact is missing at the precompiled path; every file with
artifacts for all locales is absent from the dirty set, and afterwards its
content at each active output path is byte-identical to (and as present as)
the corresponding precompiled path.  The separation hypotheses `hsep`/`hinj`
state that distinct `(file, locale)` pairs have distinct artifact paths, as
is the case for the path layout the compiler produces. -/
theorem maybeUsePrecompiledFiles_filterDirty
    (locales : List String) (copyFails : String → Bool) (outputDir pd : String)
    (files : List String) (fs : SoyFS)
    (hnf : ∀ p, copyFails p = false)
    (hempty : "" ∉ files)
    (hndf : files.Nodup) (hndv : (vmTypesOf locales).Nodup)
    (hsep : ∀ f ∈ files, ∀ vm ∈ vmTypesOf locales, ∀ g ∈ files, ∀ vm' ∈ vmTypesOf locales,
      getOutputFile locales outputDir g vm' = getOutputFile locales pd f vm → g = f ∧ vm' = vm)
    (hinj : ∀ f ∈ files, ∀ vm ∈ vmTypesOf locales, ∀ g ∈ files, ∀ vm' ∈ vmTypesOf locales,
      getOutputFile locales outputDir g vm' = getOutputFile locales outputDir f vm
      → g = f ∧ vm' = vm) :
    (maybeUsePrecompiledFiles locales copyFails (some pd) outputDir files fs).1
      = files.filter (fun f => (vmTypesOf locales).any
          (fun vm => (fs.content (getOutputFile locales pd f vm)).isNone))
    ∧ ∀ f ∈ files,
        (∀ vm ∈ vmTypesOf locales,
          (fs.content (getOutputFile locales pd f vm)).isSome = true) →
        ∀ vm ∈ vmTypesOf locales,
          ((maybeUsePrecompiledFiles locales copyFails (some pd) outputDir files fs).2).content
              (getOutputFile locales outputDir f vm)
            = ((maybeUsePrecompiledFiles locales copyFails (some pd) outputDir files fs).2).content
              (getOutputFile locales pd f vm)
          ∧ (((maybeUsePrecompiledFiles locales copyFails (some pd) outputDir files fs).2).content
              (getOutputFile locales outputDir f vm)).isSome = true := by
  have hscan := scanFiles_results locales copyFails outputDir pd (vmTypesOf locales) files fs
    hnf hndf hsep
  have hnone : (scanFiles locales copyFails outputDir pd (vmTypesOf locales) files fs).1.contains
      none = false := by
    rw [hscan]; exact mapSomeNotContainsNone files _
  have hbranch : maybeUsePrecompiledFiles locales copyFails (some pd) outputDir files fs
      = ((((scanFiles locales copyFails outputDir pd (vmTypesOf locales) files fs).1).filterMap
            id).filter (fun s => s != ""),
         (scanFiles locales copyFails outputDir pd (vmTypesOf locales) files fs).2) := by
    simp only [maybeUsePrecompiledFiles]
    rw [hnone]
    simp
  constructor
  · rw [hbranch]
    show (((scanFiles locales copyFails outputDir pd (vmTypesOf locales) files fs).1).filterMap
        id).filter (fun s => s != "") = _
    rw [hscan, filterMapIdMapSome, filterIfMask files _ hempty,
      listFilterCongr files _ _ (fun f _ => (anyIsNoneEqNotAllIsSome (vmTypesOf locales)
        (fun vm => fs.content (getOutputFile locales pd f vm))).symm)]
  · intro f hf hsat vm hvm
    rw [hbranch]
    show ((scanFiles locales copyFails outputDir pd (vmTypesOf locales) files fs).2).content _
        = ((scanFiles locales copyFails outputDir pd (vmTypesOf locales) files fs).2).content _
      ∧ (((scanFiles locales copyFails outputDir pd (vmTypesOf locales)
            files fs).2).content _).isSome = true
    have hout := scanFiles_out locales copyFails outputDir pd (vmTypesOf locales) files fs
      hnf hndf hndv hsep hinj f hf hsat vm hvm
    have hpre : ((scanFiles locales copyFails outputDir pd (vmTypesOf locales) files fs).2).content
        (getOutputFile locales pd f vm) = fs.content (getOutputFile locales pd f vm) := by
      apply scanFiles_content
      intro x hx u hu
      by_cases h : getOutputFile locales pd f vm = getOutputFile locales outputDir x u
      · have := hsep f hf vm hvm x hx u hu h.symm
        rcases this with ⟨rfl, rfl⟩
        left
        exact h.symm
      · right
        exact h
    refine ⟨?_, ?_⟩
    · rw [hout, hpre]
    · rw [hout]
      exact hsat vm hvm

/-- A concrete filesystem for exercising the cache filter: only
`a.soy` has a precompiled artifact. -/
def witFS : SoyFS :=
  ⟨fun p => if p = "/pre/a.soy.js" then some "AAA" else none⟩

theorem maybeUsePrecompiledFiles_filterDirty_witness :
    ("" ∉ (["a.soy", "b.soy"] : List String))
    ∧ (["a.soy", "b.soy"] : List String).Nodup
    ∧ (maybeUsePrecompiledFiles [] (fun _ => false) (some "/pre") "/out"
        ["a.soy", "b.soy"] witFS).1 = ["b.soy"]
    ∧ ((maybeUsePrecompiledFiles [] (fun _ => false) (some "/pre") "/out"
        ["a.soy", "b.soy"] witFS).2).content "/out/a.soy.js" = some "AAA" := by
  have h := maybeUsePrecompiledFiles_filterDirty [] (fun _ => false) "/out" "/pre"
    ["a.soy", "b.soy"] witFS (fun _ => rfl) (by decide) (by decide) (by decide)
    (by decide) (by decide)
  refine ⟨by decide, by decide, ?_, ?_⟩
  · rw [h.1]
    decide
  · have h2 := (h.2 "a.soy" (by decide) (by decide) DEFAULT_VM_CONTEXT (by decide)).1
    rw [show ("/out/a.soy.js" : String)
        = getOutputFile [] "/out" "a.soy" DEFAULT_VM_CONTEXT by decide, h2]
    decide

/-- A concrete filesystem where both files have precompiled artifacts. -/
def cexFS : SoyFS :=
  ⟨fun p =>
    if p = "/pre/a.soy.js" then some "AAA"
    else if p = "/pre/b.soy.js" then some "BBB"
    else none⟩

/-- Copy failure on the output artifact of `a.soy` only. -/
def cexCopyFails : String → Bool := fun p => p == "/out/a.soy.js"

/-- C5 counterexample: with both `a.soy` and `b.soy` fully precompiled but the
copy of `a.soy` into the output path failing, `_maybeUsePrecompiledFiles`
returns the WHOLE batch (`a.soy` and `b.soy`) as dirty — not just the
affected file `a.soy` — although `b.soy` is satisfied and its copy would
succeed.  That refutes the claim that only the affected file degrades to
dirty while the rest of the batch is still reused. -/
theorem preparePrecompiled_copy_failure_dirties_batch :
    (maybeUsePrecompiledFiles [] cexCopyFails (some "/pre") "/out"
        ["a.soy", "b.soy"] cexFS).1 = ["a.soy", "b.soy"]
    ∧ (cexFS.content (getOutputFile [] "/pre" "b.soy" DEFAULT_VM_CONTEXT)).isSome = true
    ∧ cexCopyFails (getOutputFile [] "/out" "b.soy" DEFAULT_VM_CONTEXT) = false
    ∧ (maybeUsePrecompiledFiles [] cexCopyFails (some "/pre") "/out"
        ["a.soy", "b.soy"] cexFS).1 ≠ ["a.soy"] := by
  decide

/-- C5 (amended): a failure while copying a satisfied precompiled artifact
(or running mkdirs) rejects the per-file promise — the rejection handler in
the source covers only `fs.stat` — so the whole batch scan rejects and the
catch-all `.fail` handler of `_maybeUsePrecompiledFiles` returns the entire
file list as dirty.  Degradation is graceful only at batch granularity:
compilation proceeds with every file treated as dirty, and no error
propagates to the caller. -/
theorem maybeUsePrecompiledFiles_failure_all_dirty
    (locales : List String) (copyFails : String → Bool) (outputDir pd : String)
    (files : List String) (fs : SoyFS)
    (hfail : ((scanFiles locales copyFails outputDir pd (vmTypesOf locales)
        files fs).1).contains none = true) :
    (maybeUsePrecompiledFiles locales copyFails (some pd) outputDir files fs).1 = files := by
  simp only [maybeUsePrecompiledFiles]
  rw [hfail]
  simp

theorem maybeUsePrecompiledFiles_failure_all_dirty_witness :
    ((scanFiles [] cexCopyFails "/out" "/pre" (vmTypesOf [])
        ["a.soy", "b.soy"] cexFS).1).contains none = true
    ∧ (maybeUsePrecompiledFiles [] cexCopyFails (some "/pre") "/out"
        ["a.soy", "b.soy"] cexFS).1 = ["a.soy", "b.soy"] :=
  ⟨by decide,
    maybeUsePrecompiledFiles_failure_all_dirty [] cexCopyFails "/out" "/pre"
      ["a.soy", "b.soy"] cexFS (by decide)⟩

/-! ## The external compiler process (`runCompiler` inside
`SoyCompiler.prototype._compileTemplateFilesAsync`)

The child process is observed through a sequence of events: chunks arriving
on stderr, `error` events of the process object, and `exit` events with an
exit code.  `String(err)` of an error event is modelled as the error text
itself.  The `Q.defer()` promise settles at most once (later
resolutions/rejections are ignored), and the source additionally guards
`onExit` with the `terminated` flag, set on the first nonzero exit. -/

/-- An observable event of the spawned compiler process. -/
inductive ProcEvent
  | stderrData (s : String)
  | procError (msg : String)
  | exit (code : Nat)
deriving DecidableEq

/-- The message of the error the source rejects with
(`new Error('Error compiling templates')`). -/
def GENERIC_COMPILE_ERROR : String := "Error compiling templates"

/-- The state of one `runCompiler` invocation: the `terminated` flag, the
accumulated stderr buffer, the settle-once deferred, and the stderr text
passed to `console.error` on the (first) failure. -/
structure CompileProcState where
  terminated : Bool
  stderr : String
  settled : Option (Except String Unit)
  loggedStderr : Option String

/-- The fresh state at spawn time. -/
def initProcState : CompileProcState :=
  ⟨false, "", none, none⟩

/-- Settling the deferred: a no-op once it has already settled. -/
def settleProc (s : CompileProcState) (r : Except String Unit) : CompileProcState :=
  match s.settled with
  | some _ => s
  | none => { s with settled := some r }

/-- `onExit(exitCode)`: ignore signals after a nonzero exit has terminated
the operation; on nonzero exit log the buffered stderr and reject with the
generic error; on exit 0 resolve. -/
def onExit (s : CompileProcState) (exitCode : Nat) : CompileProcState :=
  if s.terminated then s
  else if exitCode ≠ 0 then
    settleProc { s with terminated := true, loggedStderr := some s.stderr }
      (.error GENERIC_COMPILE_ERROR)
  else settleProc s (.ok ())

/-- One event handler dispatch: stderr chunks are appended to the buffer;
a process `error` event appends its text to the buffer and enters
`onExit(1)`; an `exit` event enters `onExit(code)`. -/
def procStep (s : CompileProcState) : ProcEvent → CompileProcState
  | .stderrData d => { s with stderr := s.stderr ++ d }
  | .procError m => onExit { s with stderr := s.stderr ++ m } 1
  | .exit c => onExit s c

/-- Running the compiler process over its whole event sequence. -/
def runCompilerProc (events : List ProcEvent) : CompileProcState :=
  events.foldl procStep initProcState

/-- The outcome a single signal would settle the deferred with (`none` for
stderr data, which settles nothing). -/
def signalOutcome : ProcEvent → Option (Except String Unit)
  | .stderrData _ => none
  | .procError _ => some (.error GENERIC_COMPILE_ERROR)
  | .exit c => some (if c = 0 then .ok () else .error GENERIC_COMPILE_ERROR)

/-- The total stderr text buffered over an event sequence. -/
def bufferedStderr : List ProcEvent → String
  | [] => ""
  | .stderrData d :: rest => d ++ bufferedStderr rest
  | .procError m :: rest => m ++ bufferedStderr rest
  | .exit _ :: rest => bufferedStderr rest

theorem settleProc_settled_some (s : CompileProcState) (r r' : Except String Unit)
    (h : s.settled = some r') : (settleProc s r).settled = some r' := by
  simp [settleProc, h]

theorem onExit_settled_some (s : CompileProcState) (c : Nat) (r : Except String Unit)
    (h : s.settled = some r) : (onExit s c).settled = some r := by
  unfold onExit
  split
  · exact h
  · split <;> exact settleProc_settled_some _ _ _ h

theorem procStep_settled_some (s : CompileProcState) (e : ProcEvent) (r : Except String Unit)
    (h : s.settled = some r) : (procStep s e).settled = some r := by
  cases e with
  | stderrData d => exact h
  | procError m => exact onExit_settled_some _ _ _ h
  | exit c => exact onExit_settled_some _ _ _ h

/-- Once the deferred has settled, no later event can change the outcome. -/
theorem foldl_settled_some (events : List ProcEvent) (s : CompileProcState)
    (r : Except String Unit) (h : s.settled = some r) :
    (events.foldl procStep s).settled = some r := by
  induction events generalizing s with
  | nil => exact h
  | cons e rest ih => exact ih _ (procStep_settled_some s e r h)

theorem foldl_settled_of_fresh (events : List ProcEvent) (s : CompileProcState)
    (hs : s.settled = none) (ht : s.terminated = false) :
    (events.foldl procStep s).settled = events.findSome? signalOutcome := by
  induction events generalizing s with
  | nil => exact hs
  | cons e rest ih =>
    cases e with
    | stderrData d =>
      simp only [List.foldl_cons, List.findSome?_cons, procStep, signalOutcome]
      exact ih _ hs ht
    | procError m =>
      simp only [List.foldl_cons, List.findSome?_cons, procStep, signalOutcome]
      have h1 : (onExit { s with stderr := s.stderr ++ m } 1).settled
          = some (.error GENERIC_COMPILE_ERROR) := by
        simp [onExit, ht, settleProc, hs]
      rw [foldl_settled_some rest _ _ h1]
    | exit c =>
      simp only [List.foldl_cons, List.findSome?_cons, procStep, signalOutcome]
      by_cases hc : c = 0
      · subst hc
        have h1 : (onExit s 0).settled = some (.ok ()) := by
          simp [onExit, ht, settleProc, hs]
        rw [foldl_settled_some rest _ _ h1]
        simp
      · have h1 : (onExit s c).settled = some (.error GENERIC_COMPILE_ERROR) := by
          simp [onExit, ht, hc, settleProc, hs]
        rw [foldl_settled_some rest _ _ h1]
        simp [hc]

theorem foldl_stderr (events : List ProcEvent) (s : CompileProcState) :
    (events.foldl procStep s).stderr = s.stderr ++ bufferedStderr events := by
  induction events generalizing s with
  | nil => simp [bufferedStderr]
  | cons e rest ih =>
    cases e with
    | stderrData d =>
      simp only [List.foldl_cons, procStep, bufferedStderr, ih]
      rw [String.append_assoc]
    | procError m =>
      have honExit : ∀ (t : CompileProcState) (c : Nat), (onExit t c).stderr = t.stderr := by
        intro t c
        unfold onExit settleProc
        split
        · rfl
        · split <;> (split <;> rfl)
      simp only [List.foldl_cons, procStep, bufferedStderr, ih, honExit]
      rw [String.append_assoc]
    | exit c =>
      have honExit : ∀ (t : CompileProcState) (c : Nat), (onExit t c).stderr = t.stderr := by
        intro t c
        unfold onExit settleProc
        split
        · rfl
        · split <;> (split <;> rfl)
      simp only [List.foldl_cons, procStep, bufferedStderr, ih, honExit]

/-- C4 (amended): for every event sequence of the compiler child process, the
compile operation settles with the outcome of the FIRST exit or error signal
— a process error or nonzero exit rejects with the fixed generic error
`Error compiling templates`, an exit 0 resolves — and any exit/error signals
arriving after the operation has settled are ignored (the fold result is the
first signal's outcome regardless of later signals); all stderr chunks and
error texts are buffered into the stderr buffer, which is logged on failure
rather than attached to the rejection. -/
theorem runCompilerProc_first_signal_wins (events : List ProcEvent) :
    (runCompilerProc events).settled = events.findSome? signalOutcome
    ∧ (runCompilerProc events).stderr = bufferedStderr events := by
  constructor
  · exact foldl_settled_of_fresh events initProcState rfl rfl
  · exact foldl_stderr events initProcState

/-- C4 counterexample: with stderr data `compiler blew up` followed by exit
code 1, the operation rejects with the fixed message `Error compiling
templates`; the buffered stderr `compiler blew up` is not contained in that
message (it is logged instead), so the error surfaced to the caller does NOT
carry the buffered stderr text. -/
theorem runCompilerProc_error_lacks_stderr :
    (runCompilerProc [.stderrData "compiler blew up", .exit 1]).settled
      = some (.error GENERIC_COMPILE_ERROR)
    ∧ (runCompilerProc [.stderrData "compiler blew up", .exit 1]).stderr = "compiler blew up"
    ∧ (runCompilerProc [.stderrData "compiler blew up", .exit 1]).loggedStderr
      = some "compiler blew up"
    ∧ "compiler blew up" ≠ GENERIC_COMPILE_ERROR
    ∧ ¬ List.IsInfix ("compiler blew up".toList) (GENERIC_COMPILE_ERROR.toList) := by
  refine ⟨rfl, rfl, rfl, by decide, by decide⟩

/-! ## The compile pipeline (`SoyCompiler.prototype._compileTemplateFilesAsync`
and `SoyCompiler.prototype._postCompileProcess`) -/

/-- The options consulted by the post-compile pipeline. -/
structure PipelineOptions where
  locales : List String
  concatOutput : Bool
  concatFileName : String
  loadCompiledTemplates : Bool

/-- The observable actions of one `_postCompileProcess` invocation for one
vm type: the derived template output paths, whether (and where) the outputs
are concatenated, and whether the templates are loaded into the vm context. -/
structure PostCall where
  vmType : String
  templatePaths : List String
  didConcat : Bool
  concatTarget : String
  didLoad : Bool

/-- `SoyCompiler.prototype._postCompileProcess` for one vm type: derive each
file's expected output path, concatenate when `concatOutput` is set (the
concat file name carries a `_<vmType>` suffix only with more than one
locale), and load into the vm context when `loadCompiledTemplates` is set. -/
def postCompileProcess (options : PipelineOptions) (outputDir : String)
    (files : List String) (vmType : String) : PostCall :=
  { vmType := vmType
    templatePaths := files.map (fun file => getOutputFile options.locales outputDir file vmType)
    didConcat := options.concatOutput
    concatTarget := outputDir ++ "/" ++ options.concatFileName
      ++ (if options.locales.length > 1 then "_" ++ vmType else "") ++ ".soy.concat.js"
    didLoad := options.loadCompiledTemplates }

/-- `_compileTemplateFilesAsync`: `runCompiler` resolves immediately without
spawning when `dirtyFiles` is empty, otherwise it spawns exactly one `java`
process whose success is its exit code being 0.  On success, the sequential
`next()` loop pops vm types from the END of the array (`vmTypes.pop()`), so
post-compile processing runs once per vm type in reverse order, always over
`allFiles`.  The result is the number of processes spawned, and `some` list
of post-compile invocations on success (`none` when the compiler failed and
post-processing never ran). -/
def compileTemplateFilesAsync (options : PipelineOptions) (outputDir : String)
    (allFiles dirtyFiles : List String) (compilerExitCode : Nat) :
    Nat × Option (List PostCall) :=
  let spawns := if dirtyFiles.isEmpty then 0 else 1
  let runOk := dirtyFiles.isEmpty || (compilerExitCode == 0)
  if runOk then
    (spawns, some ((vmTypesOf options.locales).reverse.map
      (postCompileProcess options outputDir allFiles)))
  else (spawns, none)

/-- C6: when the dirty-file list passed to the compile step is empty, no
compiler process is spawned (spawn count 0), yet post-compile processing
still runs for every configured vm type over the FULL file list — exactly
the same post-compile invocations as a successful run with any non-empty
dirty list produces. -/
theorem compileTemplateFilesAsync_empty_dirty (options : PipelineOptions)
    (outputDir : String) (allFiles dirtyFiles : List String) (compilerExitCode : Nat) :
    (compileTemplateFilesAsync options outputDir allFiles [] compilerExitCode).1 = 0
    ∧ (compileTemplateFilesAsync options outputDir allFiles [] compilerExitCode).2
      = some ((vmTypesOf options.locales).reverse.map
          (postCompileProcess options outputDir allFiles))
    ∧ (compileTemplateFilesAsync options outputDir allFiles [] compilerExitCode).2
      = (compileTemplateFilesAsync options outputDir allFiles dirtyFiles 0).2 := by
  refine ⟨rfl, rfl, ?_⟩
  simp [compileTemplateFilesAsync]

/-! ## The change-watch scheduler
(`SoyCompiler.prototype._maybeSetupDynamicRecompile`)

State shared by all watched files of one compiler: the `_watches` timestamp
map, the `dirtyFileSet` object (a set of relative file names with insertion
order), the chain of jobs attached to `currentCompilePromise` that have not
yet run, and the list of compile passes launched so far (each pass recorded
as the captured dirty file list).  `fs.watchFile` callbacks run on the
single-threaded event loop, so a burst of notifications performs all its
synchronous parts before the first chained job runs; the chained jobs then
run strictly one after another. -/

structure WatchState where
  watches : String → Option Nat
  dirtyFileSet : List String
  queuedJobs : Nat
  passes : List (List String)

/-- `dirtyFileSet[relativeFile] = true`: a no-op when the key is present,
otherwise the key is appended (JS object insertion order). -/
def insertDirty (file : String) (s : List String) : List String :=
  if file ∈ s then s else s ++ [file]

/-- The debounce test `now - self._watches[file] < 1000`.  An absent
timestamp gives `NaN < 1000`, which is false in JS, hence `false` here. -/
def elapsedBelow : Option Nat → Nat → Bool
  | none, _ => false
  | some last, now => now - last < 1000

/-- Registration of one file in `_maybeSetupDynamicRecompile`: a file that
already has a watch is skipped, otherwise its timestamp is initialized to
the current time (the callback attachment itself is modelled by
`watchCallback` below). -/
def registerWatch (s : WatchState) (file : String) (now : Nat) : WatchState :=
  match s.watches file with
  | some _ => s
  | none => { s with watches := fun f => if f = file then some now else s.watches f }

/-- The `fs.watchFile` callback body: below the debounce threshold the
notification is discarded with no state change at all; otherwise the file is
added to the shared dirty set, its timestamp is updated, and one job is
chained onto the current compile promise. -/
def watchCallback (s : WatchState) (file : String) (now : Nat) : WatchState :=
  if elapsedBelow (s.watches file) now then s
  else
    { s with
      dirtyFileSet := insertDirty file s.dirtyFileSet
      watches := fun f => if f = file then some now else s.watches f
      queuedJobs := s.queuedJobs + 1 }

/-- One chained job running after the previous compile completed: if the
dirty set is empty the job is a no-op (another job already claimed the
files); otherwise it atomically swaps the dirty set for an empty one and
launches exactly one compile pass over the captured set. -/
def runJob (s : WatchState) : WatchState :=
  if s.dirtyFileSet.isEmpty then s
  else
    { s with
      dirtyFileSet := []
      passes := s.passes ++ [s.dirtyFileSet] }

/-- Running `n` chained jobs in order. -/
def runJobsAux : WatchState → Nat → WatchState
  | s, 0 => s
  | s, n + 1 => runJobsAux (runJob s) n

theorem runJob_empty (s : WatchState) (h : s.dirtyFileSet = []) : runJob s = s := by
  simp [runJob, h]

theorem runJobsAux_empty (s : WatchState) (n : Nat) (h : s.dirtyFileSet = []) :
    runJobsAux s n = s := by
  induction n with
  | zero => rfl
  | succ m ih => simp only [runJobsAux, runJob_empty s h, ih]

theorem foldl_insertDirty (files : List String) (acc : List String)
    (hnd : files.Nodup) (hdisj : ∀ f ∈ files, f ∉ acc) :
    files.foldl (fun d f => insertDirty f d) acc = acc ++ files := by
  induction files generalizing acc with
  | nil => simp
  | cons f rest ih =>
    have h1 : insertDirty f acc = acc ++ [f] := by
      simp [insertDirty, hdisj f (List.mem_cons_self _ _)]
    have h2 : ∀ g ∈ rest, g ∉ acc ++ [f] := by
      intro g hg
      simp only [List.mem_append, List.mem_singleton]
      rintro (hga | rfl)
      · exact hdisj g (List.mem_cons_of_mem _ hg) hga
      · exact (List.nodup_cons.mp hnd).1 hg
    simp only [List.foldl_cons, h1, ih _ ((List.nodup_cons.mp hnd).2) h2,
      List.append_assoc, List.singleton_append]

theorem foldl_watchCallback (files : List String) (s : WatchState) (T : Nat)
    (hnd : files.Nodup)
    (hacc : ∀ f ∈ files, elapsedBelow (s.watches f) T = false) :
    (files.foldl (fun st f => watchCallback st f T) s).dirtyFileSet
        = files.foldl (fun d f => insertDirty f d) s.dirtyFileSet
    ∧ (files.foldl (fun st f => watchCallback st f T) s).passes = s.passes
    ∧ (files.foldl (fun st f => watchCallback st f T) s).queuedJobs
        = s.queuedJobs + files.length := by
  induction files generalizing s with
  | nil => exact ⟨rfl, rfl, rfl⟩
  | cons f rest ih =>
    have hstep : watchCallback s f T
        = { s with
            dirtyFileSet := insertDirty f s.dirtyFileSet
            watches := fun g => if g = f then some T else s.watches g
            queuedJobs := s.queuedJobs + 1 } := by
      simp [watchCallback, hacc f (List.mem_cons_self _ _)]
    have hacc2 : ∀ g ∈ rest,
        elapsedBelow ((watchCallback s f T).watches g) T = false := by
      intro g hg
      rw [hstep]
      have hgf : g ≠ f := fun h => (List.nodup_cons.mp hnd).1 (h ▸ hg)
      simp only [hgf, if_false]
      exact hacc g (List.mem_cons_of_mem _ hg)
    obtain ⟨ihd, ihp, ihq⟩ := ih (watchCallback s f T) ((List.nodup_cons.mp hnd).2) hacc2
    refine ⟨?_, ?_, ?_⟩
    · rw [List.foldl_cons, ihd, List.foldl_cons, hstep]
    · rw [List.foldl_cons, ihp, hstep]
    · rw [List.foldl_cons, ihq, hstep]
      simp [Nat.add_assoc, Nat.add_comm 1 rest.length]

/-- C2: a burst of `n ≥ 1` accepted near-simultaneous change notifications
over distinct files (all synchronous parts run before the first chained job,
per the event loop) adds each file to the shared dirty set and chains one
job each onto the current compile promise; running the chained jobs then
launches EXACTLY ONE compile pass covering the union of the notified files,
and every later job — a notification that finds the dirty set already empty
— is a no-op launching no pass. -/
theorem watchScheduler_single_pass (files : List String) (s0 : WatchState) (T : Nat)
    (hnd : files.Nodup) (hne : files ≠ [])
    (hdirty : s0.dirtyFileSet = [])
    (hacc : ∀ f ∈ files, elapsedBelow (s0.watches f) T = false) :
    (runJobsAux (files.foldl (fun st f => watchCallback st f T) s0)
        (files.foldl (fun st f => watchCallback st f T) s0).queuedJobs).passes
      = s0.passes ++ [files]
    ∧ runJob (runJob (files.foldl (fun st f => watchCallback st f T) s0))
      = runJob (files.foldl (fun st f => watchCallback st f T) s0) := by
  obtain ⟨hd, hp, hq⟩ := foldl_watchCallback files s0 T hnd hacc
  rw [hdirty] at hd
  have hd2 : (files.foldl (fun st f => watchCallback st f T) s0).dirtyFileSet = files := by
    rw [hd, foldl_insertDirty files [] hnd (fun f _ => List.not_mem_nil f)]
    simp
  have hdne : ¬(files.foldl (fun st f => watchCallback st f T) s0).dirtyFileSet.isEmpty := by
    rw [hd2]
    cases files with
    | nil => exact absurd rfl hne
    | cons a l => simp
  have hfirst : runJob (files.foldl (fun st f => watchCallback st f T) s0)
      = { files.foldl (fun st f => watchCallback st f T) s0 with
          dirtyFileSet := []
          passes := (files.foldl (fun st f => watchCallback st f T) s0).passes
            ++ [(files.foldl (fun st f => watchCallback st f T) s0).dirtyFileSet] } := by
    simp only [runJob]
    rw [if_neg hdne]
  constructor
  · obtain ⟨m, hm⟩ : ∃ m, (files.foldl (fun st f => watchCallback st f T) s0).queuedJobs
        = m + 1 := by
      rw [hq]
      cases files with
      | nil => exact absurd rfl hne
      | cons a l => exact ⟨s0.queuedJobs + l.length, rfl⟩
    rw [hm]
    show (runJobsAux (runJob _) m).passes = _
    rw [hfirst, runJobsAux_empty _ m rfl]
    simp [hp, hd2]
  · apply runJob_empty
    rw [hfirst]

/-- C7: the debounce of the watch callback.  A raw change notification for a
watched file whose elapsed time since the file's stored timestamp is below
the 1000 ms threshold is discarded with NO state change (the file is not
added to the dirty set, the timestamp is not updated, no job is chained); a
notification at or beyond the threshold is accepted — it updates the
timestamp to its own time, marks the file dirty and chains one job.
Consequently two same-file notifications closer than the threshold yield
exactly one accepted change, and two at least the threshold apart yield
two. -/
theorem watchCallback_debounce (s : WatchState) (file : String) (last t1 t2 t3 t4 : Nat)
    (hw : s.watches file = some last)
    (h1 : t1 - last < 1000)
    (h2 : 1000 ≤ t2 - last)
    (h3 : t3 - t2 < 1000)
    (h4 : 1000 ≤ t4 - t2) :
    watchCallback s file t1 = s
    ∧ (watchCallback s file t2).watches file = some t2
    ∧ (watchCallback s file t2).dirtyFileSet = insertDirty file s.dirtyFileSet
    ∧ (watchCallback s file t2).queuedJobs = s.queuedJobs + 1
    ∧ watchCallback (watchCallback s file t2) file t3 = watchCallback s file t2
    ∧ (watchCallback (watchCallback s file t2) file t4).watches file = some t4
    ∧ (watchCallback (watchCallback s file t2) file t4).queuedJobs = s.queuedJobs + 2 := by
  have hb1 : elapsedBelow (s.watches file) t1 = true := by
    simp [elapsedBelow, hw, h1]
  have hb2 : elapsedBelow (s.watches file) t2 = false := by
    simp [elapsedBelow, hw, Nat.not_lt.mpr h2]
  have hstep : watchCallback s file t2
      = { s with
          dirtyFileSet := insertDirty file s.dirtyFileSet
          watches := fun g => if g = file then some t2 else s.watches g
          queuedJobs := s.queuedJobs + 1 } := by
    simp [watchCallback, hb2]
  set s2 := watchCallback s file t2 with hs2
  have hw2 : s2.watches file = some t2 := by
    rw [hstep]; simp
  have hq2 : s2.queuedJobs = s.queuedJobs + 1 := by
    rw [hstep]
  have hb3 : elapsedBelow (s2.watches file) t3 = true := by
    simp [hw2, elapsedBelow, h3]
  have hb4 : elapsedBelow (s2.watches file) t4 = false := by
    simp [hw2, elapsedBelow, Nat.not_lt.mpr h4]
  refine ⟨by simp [watchCallback, hb1], hw2, by rw [hstep], hq2, ?_, ?_, ?_⟩
  · simp [watchCallback, hb3]
  · simp [watchCallback, hb4]
  · simp only [watchCallback, hb4, Bool.false_eq_true, if_false]
    rw [hq2]

/-- A concrete watch state: two files watched since time 0, nothing dirty,
no queued job, no pass launched yet. -/
def watchW : WatchState :=
  ⟨fun f => if f = "t1.soy" then some 0 else if f = "t2.soy" then some 0 else none,
    [], 0, []⟩

theorem watchScheduler_single_pass_witness :
    (["t1.soy", "t2.soy"] : List String).Nodup
    ∧ (["t1.soy", "t2.soy"] : List String) ≠ []
    ∧ watchW.dirtyFileSet = []
    ∧ (∀ f ∈ ["t1.soy", "t2.soy"], elapsedBelow (watchW.watches f) 5000 = false)
    ∧ (runJobsAux (["t1.soy", "t2.soy"].foldl (fun st f => watchCallback st f 5000) watchW)
        (["t1.soy", "t2.soy"].foldl
          (fun st f => watchCallback st f 5000) watchW).queuedJobs).passes
      = [["t1.soy", "t2.soy"]] := by
  have h := watchScheduler_single_pass ["t1.soy", "t2.soy"] watchW 5000 (by decide) (by decide)
    rfl (by decide)
  exact ⟨by decide, by decide, rfl, by decide, h.1.trans (by decide)⟩

/-- A concrete watch state with one file watched since time 0. -/
def debounceW : WatchState :=
  ⟨fun f => if f = "a.soy" then some 0 else none, [], 0, []⟩

theorem watchCallback_debounce_witness :
    debounceW.watches "a.soy" = some 0
    ∧ 500 - 0 < 1000
    ∧ 1000 ≤ 1500 - 0
    ∧ 1900 - 1500 < 1000
    ∧ 1000 ≤ 2600 - 1500
    ∧ watchCallback debounceW "a.soy" 500 = debounceW
    ∧ (watchCallback (watchCallback debounceW "a.soy" 1500) "a.soy" 2600).queuedJobs
      = debounceW.queuedJobs + 2 := by
  have h := watchCallback_debounce debounceW "a.soy" 0 500 1500 1900 2600 (by decide)
    (by decide) (by decide) (by decide) (by decide)
  exact ⟨by decide, by decide, by decide, by decide, by decide, h.1, h.2.2.2.2.2.2⟩

/-! ## The sandboxed vm context (`SoyVmContext`)

The vm context owns an initialization flag, the two delegate-registry
globals kept by the executed soy support code
(`soy.$$DELEGATE_REGISTRY_PRIORITIES_` and
`soy.$$DELEGATE_REGISTRY_FUNCTIONS_`), and the template-function cache.
Executing a module is abstracted by its registry contributions
(`regPri`/`regFun`); `execFails f = true` models `vm.runInContext`
throwing while executing `f`, which aborts the remaining modules of the
batch.  `supportLoads` counts how many times the foundational support batch
(Closure libs plus soyutils) began executing, and `resetRuns` counts how
many times the `RESET_DELTEMPLATE_REGISTRY_CODE` snippet ran. -/

structure VmCtx where
  contextInitialized : Bool
  supportLoads : Nat
  resetRuns : Nat
  delegatePriorities : List String
  delegateFunctions : List String
  templateCache : List (String × String)

/-- Executing one module file into the context (its registry effect). -/
def execModule (regPri regFun : String → List String) (c : VmCtx) (file : String) : VmCtx :=
  { c with
    delegatePriorities := c.delegatePriorities ++ regPri file
    delegateFunctions := c.delegateFunctions ++ regFun file }

/-- `loadFiles`: execute the files in order; a throwing module aborts the
remaining modules of that batch and fails the load. -/
def loadFiles (regPri regFun : String → List String) (execFails : String → Bool) :
    VmCtx → List String → VmCtx × Bool
  | c, [] => (c, true)
  | c, f :: rest =>
    if execFails f then (c, false)
    else loadFiles regPri regFun execFails (execModule regPri regFun c f) rest

/-- `RESET_DELTEMPLATE_REGISTRY_CODE`: clears the two delegate-registry
globals (and nothing else). -/
def runResetSnippet (c : VmCtx) : VmCtx :=
  { c with
    resetRuns := c.resetRuns + 1
    delegatePriorities := []
    delegateFunctions := [] }

/-- `SoyVmContext.loadCompiledTemplateFiles`: on an uninitialized context,
execute the support files and mark the context initialized (only when they
all succeed); on an initialized context, run the reset snippet instead.
Then execute `contextJsPaths` followed by the caller's files, and clear the
template-function cache when all of them succeeded.  The boolean result is
whether the callback received a success. -/
def loadCompiledTemplateFiles (regPri regFun : String → List String)
    (execFails : String → Bool) (contextJsPaths supportFiles : List String)
    (c : VmCtx) (files : List String) : VmCtx × Bool :=
  let init :=
    if c.contextInitialized then (runResetSnippet c, true)
    else
      let c1 := { c with supportLoads := c.supportLoads + 1 }
      let r := loadFiles regPri regFun execFails c1 supportFiles
      if r.2 then ({ r.1 with contextInitialized := true }, true) else (r.1, false)
  if init.2 then
    let r := loadFiles regPri regFun execFails init.1 (contextJsPaths ++ files)
    if r.2 then ({ r.1 with templateCache := [] }, true) else (r.1, false)
  else (init.1, false)

/-- The file list of the last load call of a sequence. -/
def lastCall : List (List String) → List String
  | [] => []
  | [fs] => fs
  | _ :: rest => lastCall rest

theorem loadFiles_ok (regPri regFun : String → List String) (execFails : String → Bool)
    (hok : ∀ f, execFails f = false) (files : List String) (c : VmCtx) :
    loadFiles regPri regFun execFails c files
      = ({ c with
            delegatePriorities := c.delegatePriorities ++ (files.map regPri).flatten
            delegateFunctions := c.delegateFunctions ++ (files.map regFun).flatten }, true) := by
  induction files generalizing c with
  | nil => simp [loadFiles]
  | cons f rest ih =>
    simp [loadFiles, hok f, execModule, ih, List.append_assoc]

theorem loadCompiledTemplateFiles_next (regPri regFun : String → List String)
    (execFails : String → Bool) (contextJsPaths supportFiles : List String)
    (c : VmCtx) (files : List String)
    (hok : ∀ f, execFails f = false) (hinit : c.contextInitialized = true) :
    loadCompiledTemplateFiles regPri regFun execFails contextJsPaths supportFiles c files
      = ({ contextInitialized := true
           supportLoads := c.supportLoads
           resetRuns := c.resetRuns + 1
           delegatePriorities := (((contextJsPaths ++ files).map regPri)).flatten
           delegateFunctions := (((contextJsPaths ++ files).map regFun)).flatten
           templateCache := [] }, true) := by
  simp [loadCompiledTemplateFiles, hinit, runResetSnippet,
    loadFiles_ok regPri regFun execFails hok]

theorem loadCompiledTemplateFiles_first (regPri regFun : String → List String)
    (execFails : String → Bool) (contextJsPaths supportFiles : List String)
    (c : VmCtx) (files : List String)
    (hok : ∀ f, execFails f = false) (hinit : c.contextInitialized = false) :
    loadCompiledTemplateFiles regPri regFun execFails contextJsPaths supportFiles c files
      = ({ contextInitialized := true
           supportLoads := c.supportLoads + 1
           resetRuns := c.resetRuns
           delegatePriorities := c.delegatePriorities
             ++ (((supportFiles ++ contextJsPaths ++ files).map regPri)).flatten
           delegateFunctions := c.delegateFunctions
             ++ (((supportFiles ++ contextJsPaths ++ files).map regFun)).flatten
           templateCache := [] }, true) := by
  simp [loadCompiledTemplateFiles, hinit, loadFiles_ok regPri regFun execFails hok,
    List.append_assoc]

theorem foldl_loadCompiledTemplateFiles_next (regPri regFun : String → List String)
    (execFails : String → Bool) (contextJsPaths supportFiles : List String)
    (rest : List (List String)) (c : VmCtx)
    (hok : ∀ f, execFails f = false) (hinit : c.contextInitialized = true)
    (hcache : c.templateCache = []) :
    let final := rest.foldl
      (fun st fs => (loadCompiledTemplateFiles regPri regFun execFails contextJsPaths
        supportFiles st fs).1) c
    final.contextInitialized = true
    ∧ final.supportLoads = c.supportLoads
    ∧ final.resetRuns = c.resetRuns + rest.length
    ∧ final.templateCache = []
    ∧ final.delegatePriorities
      = (if rest.isEmpty then c.delegatePriorities
         else ((contextJsPaths ++ lastCall rest).map regPri).flatten)
    ∧ final.delegateFunctions
      = (if rest.isEmpty then c.delegateFunctions
         else ((contextJsPaths ++ lastCall rest).map regFun).flatten) := by
  induction rest generalizing c with
  | nil => exact ⟨hinit, rfl, rfl, hcache, rfl, rfl⟩
  | cons fs rest' ih =>
    have hstep := loadCompiledTemplateFiles_next regPri regFun execFails contextJsPaths
      supportFiles c fs hok hinit
    have ih2 := ih ((loadCompiledTemplateFiles regPri regFun execFails contextJsPaths
        supportFiles c fs).1) (by rw [hstep]) (by rw [hstep])
    obtain ⟨i1, i2, i3, i4, i5, i6⟩ := ih2
    simp only [List.foldl_cons]
    refine ⟨i1, ?_, ?_, i4, ?_, ?_⟩
    · rw [i2, hstep]
    · rw [i3, hstep]
      show c.resetRuns + 1 + rest'.length = c.resetRuns + (rest'.length + 1)
      rw [Nat.add_assoc, Nat.add_comm 1 rest'.length]
    · rw [i5, hstep]
      cases rest' with
      | nil => simp [lastCall]
      | cons g t => simp [lastCall]
    · rw [i6, hstep]
      cases rest' with
      | nil => simp [lastCall]
      | cons g t => simp [lastCall]

/-- C3: over any non-empty sequence of successful `loadCompiledTemplateFiles`
calls on one context, the foundational support modules are executed during
the first call only and exactly once over the context's lifetime
(`supportLoads = 1`); every subsequent call instead runs the reset snippet
that clears the two delegate-registry globals (`resetRuns = calls - 1`, and
the registries afterwards hold exactly the contributions of the last call's
modules, with the support contributions surviving only when there was no
subsequent call); and after the modules of a call execute successfully the
template-function cache is cleared. -/
theorem loadCompiledTemplateFiles_support_once (regPri regFun : String → List String)
    (execFails : String → Bool) (contextJsPaths supportFiles : List String)
    (calls : List (List String)) (c0 : VmCtx)
    (hok : ∀ f, execFails f = false)
    (hfresh : c0.contextInitialized = false ∧ c0.supportLoads = 0
      ∧ c0.resetRuns = 0 ∧ c0.delegatePriorities = [] ∧ c0.delegateFunctions = [])
    (hne : calls ≠ []) :
    let final := calls.foldl
      (fun st fs => (loadCompiledTemplateFiles regPri regFun execFails contextJsPaths
        supportFiles st fs).1) c0
    final.contextInitialized = true
    ∧ final.supportLoads = 1
    ∧ final.resetRuns = calls.length - 1
    ∧ final.templateCache = []
    ∧ final.delegatePriorities
      = (((if calls.length = 1 then supportFiles else []) ++ contextJsPaths
          ++ lastCall calls).map regPri).flatten
    ∧ final.delegateFunctions
      = (((if calls.length = 1 then supportFiles else []) ++ contextJsPaths
          ++ lastCall calls).map regFun).flatten := by
  obtain ⟨hf1, hf2, hf3, hf4, hf5⟩ := hfresh
  cases calls with
  | nil => exact absurd rfl hne
  | cons fs rest =>
    have hstep := loadCompiledTemplateFiles_first regPri regFun execFails contextJsPaths
      supportFiles c0 fs hok hf1
    have h := foldl_loadCompiledTemplateFiles_next regPri regFun execFails contextJsPaths
      supportFiles rest ((loadCompiledTemplateFiles regPri regFun execFails contextJsPaths
        supportFiles c0 fs).1) hok (by rw [hstep]) (by rw [hstep])
    obtain ⟨i1, i2, i3, i4, i5, i6⟩ := h
    simp only [List.foldl_cons]
    refine ⟨i1, ?_, ?_, i4, ?_, ?_⟩
    · rw [i2, hstep]
      show c0.supportLoads + 1 = 1
      rw [hf2]
    · rw [i3, hstep]
      show c0.resetRuns + rest.length = (fs :: rest).length - 1
      rw [hf3]
      simp
    · rw [i5, hstep]
      cases rest with
      | nil => simp [lastCall, hf5, hf4]
      | cons g t => simp [lastCall]
    · rw [i6, hstep]
      cases rest with
      | nil => simp [lastCall, hf5, hf4]
      | cons g t => simp [lastCall]

/-- A fresh vm context (as built by the `SoyVmContext` constructor). -/
def vmCtx0 : VmCtx := ⟨false, 0, 0, [], [], []⟩

theorem loadCompiledTemplateFiles_support_once_witness :
    (([["m1.js"], ["m2.js"]] : List (List String)) ≠ [])
    ∧ vmCtx0.contextInitialized = false
    ∧ (([["m1.js"], ["m2.js"]] : List (List String)).foldl
        (fun st fs => (loadCompiledTemplateFiles (fun f => [f ++ ":p"]) (fun f => [f ++ ":f"])
          (fun _ => false) ["ctx.js"] ["base.js", "soyutils.js"] st fs).1) vmCtx0).supportLoads
      = 1
    ∧ (([["m1.js"], ["m2.js"]] : List (List String)).foldl
        (fun st fs => (loadCompiledTemplateFiles (fun f => [f ++ ":p"]) (fun f => [f ++ ":f"])
          (fun _ => false) ["ctx.js"] ["base.js", "soyutils.js"] st fs).1) vmCtx0).resetRuns
      = 1
    ∧ (([["m1.js"], ["m2.js"]] : List (List String)).foldl
        (fun st fs => (loadCompiledTemplateFiles (fun f => [f ++ ":p"]) (fun f => [f ++ ":f"])
          (fun _ => false) ["ctx.js"] ["base.js", "soyutils.js"] st fs).1) vmCtx0).templateCache
      = [] := by
  have h := loadCompiledTemplateFiles_support_once (fun f => [f ++ ":p"]) (fun f => [f ++ ":f"])
    (fun _ => false) ["ctx.js"] ["base.js", "soyutils.js"] [["m1.js"], ["m2.js"]] vmCtx0
    (fun _ => rfl) ⟨rfl, rfl, rfl, rfl, rfl⟩ (by decide)
  exact ⟨by decide, rfl, h.2.1, h.2.2.1, h.2.2.2.1⟩

/-! ## Template-function lookup (`SoyVmContext.get` and
`SoyCompiler.prototype.get`)

Evaluating the template name as an expression in the vm context
(`vm.runInContext(templateName, context)`) is abstracted by `evalExpr`:
`none` models a throw (caught and fallen through) or an `undefined` result,
`some ""` a falsy value, and any other `some` value a usable function
reference.  The template cache maps names to such references. -/

/-- The configuration-error message thrown when the compiler was configured
with `loadCompiledTemplates` disabled. -/
def CONFIG_ERROR_MSG : String :=
  "soynode: Cannot load template, try with `loadCompiledTemplates: true`."

/-- The unknown-template error message. -/
def unknownTemplateMsg (templateName : String) : String :=
  "soynode: Unknown template [" ++ templateName ++ "]"

/-- JS property read on an object modelled as an association list
(`this._templateCache[templateName]`, `this[key]`, `opts[key]`). -/
def lookupCache (cache : List (String × α)) (k : String) : Option α :=
  (cache.find? (fun kv => kv.1 == k)).map Prod.snd

/-- JS truthiness of a looked-up cache entry (`undefined` and `""` are
falsy). -/
def jsTruthy : Option String → Bool
  | none => false
  | some s => s != ""

/-- JS property write on an object modelled as an association list
(`this._templateCache[templateName] = template`, `this[key] = opts[key]`). -/
def cacheSet (cache : List (String × α)) (k : String) (v : α) : List (String × α) :=
  if (cache.find? (fun kv => kv.1 == k)).isSome
  then cache.map (fun kv => if kv.1 == k then (k, v) else kv)
  else cache ++ [(k, v)]

/-- `SoyVmContext.get` (reached unchanged through `SoyCompiler.prototype.get`):
fail with the configuration error when `loadCompiledTemplates` is disabled;
otherwise return the cached reference when the cache holds a truthy entry,
else evaluate the name in the context, fail with the unknown-template error
on a throw or falsy result, and cache and return the reference otherwise. -/
def vmGet (loadCompiledTemplates : Bool) (evalExpr : String → Option String)
    (c : VmCtx) (templateName : String) : Except String (String × VmCtx) :=
  if !loadCompiledTemplates then .error CONFIG_ERROR_MSG
  else if jsTruthy (lookupCache c.templateCache templateName) then
    .ok ((lookupCache c.templateCache templateName).getD "", c)
  else
    match evalExpr templateName with
    | none => .error (unknownTemplateMsg templateName)
    | some t =>
      if t = "" then .error (unknownTemplateMsg templateName)
      else .ok (t, { c with templateCache := cacheSet c.templateCache templateName t })

theorem lookupCache_cacheSet (cache : List (String × α)) (k : String) (v : α) :
    lookupCache (cacheSet cache k v) k = some v := by
  induction cache with
  | nil =>
    simp [cacheSet, lookupCache]
  | cons hd tl ih =>
    by_cases hb : hd.1 == k
    · have hfind : ((hd :: tl).find? (fun kv => kv.1 == k)) = some hd :=
        List.find?_cons_of_pos _ hb
      simp only [cacheSet, hfind, Option.isSome_some, if_true, List.map_cons, hb, if_true,
        lookupCache]
      rw [List.find?_cons_of_pos _ (by simp)]
      rfl
    · have hbf : (hd.1 == k) = false := by
        cases h : hd.1 == k
        · rfl
        · exact absurd h hb
      have hfind : ((hd :: tl).find? (fun kv => kv.1 == k)) = tl.find? (fun kv => kv.1 == k) :=
        List.find?_cons_of_neg _ (by simp [hbf])
      by_cases hs : (tl.find? (fun kv => kv.1 == k)).isSome
      · have hset : cacheSet (hd :: tl) k v
            = (if hd.1 == k then (k, v) else hd) :: tl.map (fun kv => if kv.1 == k then (k, v)
              else kv) := by
          simp [cacheSet, hfind, hs]
        have hset2 : cacheSet tl k v = tl.map (fun kv => if kv.1 == k then (k, v) else kv) := by
          simp [cacheSet, hs]
        rw [hset]
        simp only [hbf, if_false, lookupCache]
        rw [List.find?_cons_of_neg _ (by simp [hbf])]
        rw [← lookupCache, ← hset2, ih]
      · have hset : cacheSet (hd :: tl) k v = hd :: (tl ++ [(k, v)]) := by
          simp [cacheSet, hfind, hs]
        have hset2 : cacheSet tl k v = tl ++ [(k, v)] := by
          simp [cacheSet, hs]
        rw [hset]
        simp only [lookupCache]
        rw [List.find?_cons_of_neg _ (by simp [hbf])]
        rw [← lookupCache, ← hset2, ih]

/-- C8: `get` fails with the configuration error whenever the owning
compiler disables `loadCompiledTemplates`, for every template name and
context state; with loading enabled and a cache miss it fails with the
unknown-template error when evaluation throws/yields `undefined` or yields a
falsy value, and on a successful first resolution it returns the reference
and caches it, after which a further `get` of the same name returns the
cached reference with the context unchanged, WITHOUT re-evaluating — the
result no longer depends on the evaluation function at all (`evalExpr2` is
arbitrary). -/
theorem vmGet_spec (evalExpr evalExpr2 : String → Option String) (c : VmCtx)
    (goodName badName t : String)
    (hmissGood : jsTruthy (lookupCache c.templateCache goodName) = false)
    (hmissBad : jsTruthy (lookupCache c.templateCache badName) = false)
    (hbad : evalExpr badName = none ∨ evalExpr badName = some "")
    (hgood : evalExpr goodName = some t) (ht : t ≠ "") :
    vmGet false evalExpr c goodName = .error CONFIG_ERROR_MSG
    ∧ vmGet true evalExpr c badName = .error (unknownTemplateMsg badName)
    ∧ vmGet true evalExpr c goodName
      = .ok (t, { c with templateCache := cacheSet c.templateCache goodName t })
    ∧ vmGet true evalExpr2 { c with templateCache := cacheSet c.templateCache goodName t }
        goodName
      = .ok (t, { c with templateCache := cacheSet c.templateCache goodName t }) := by
  refine ⟨rfl, ?_, ?_, ?_⟩
  · rcases hbad with hbad | hbad <;> simp [vmGet, hmissBad, hbad]
  · simp [vmGet, hmissGood, hgood, ht]
  · have hhit : lookupCache (cacheSet c.templateCache goodName t) goodName = some t :=
      lookupCache_cacheSet c.templateCache goodName t
    have htruthy : jsTruthy (lookupCache (cacheSet c.templateCache goodName t) goodName)
        = true := by
      simp [hhit, jsTruthy, ht]
    simp [vmGet, htruthy, hhit, jsTruthy, ht]

/-- A concrete evaluation function: only `tpl.good` resolves, to `FN`. -/
def evalW : String → Option String := fun n => if n = "tpl.good" then some "FN" else none

theorem vmGet_spec_witness :
    jsTruthy (lookupCache vmCtx0.templateCache "tpl.good") = false
    ∧ jsTruthy (lookupCache vmCtx0.templateCache "tpl.missing") = false
    ∧ evalW "tpl.good" = some "FN"
    ∧ vmGet false evalW vmCtx0 "tpl.good" = .error CONFIG_ERROR_MSG
    ∧ vmGet true evalW vmCtx0 "tpl.missing" = .error (unknownTemplateMsg "tpl.missing")
    ∧ vmGet true (fun _ => none)
        { vmCtx0 with templateCache := cacheSet vmCtx0.templateCache "tpl.good" "FN" } "tpl.good"
      = .ok ("FN", { vmCtx0 with
          templateCache := cacheSet vmCtx0.templateCache "tpl.good" "FN" }) := by
  have h := vmGet_spec evalW (fun _ => none) vmCtx0 "tpl.good" "tpl.missing" "FN"
    (by decide) (by decide) (Or.inl (by decide)) (by decide) (by decide)
  exact ⟨by decide, by decide, by decide, h.1, h.2.1, h.2.2.2⟩

/-! ## The module-level support-file promise cache (`getSupportFilePromises`
in the SoyVmContext module)

`supportFilePromises` is a variable of the MODULE, not of any
`SoyCompiler`/`SoyVmContext` instance: the first call of
`getSupportFilePromises` fixes the list of support files (the Closure
dependencies plus the `soyUtilsPath` passed by whichever instance loaded
first) and every later call — from any instance — returns that memoized
list, ignoring its own `soyUtilsPath` argument.  Two compiler instances are
modelled with their own per-instance fields next to the shared module
global. -/

/-- The fixed Closure dependency list of `soyutils_usegoog.js` (each entry
resolved against the `google-closure-library` package at runtime; the
package prefix is left implicit). -/
def CLOSURE_PATHS : List String := [
  "closure/goog/base.js",
  "closure/goog/deps.js",
  "closure/goog/debug/error.js",
  "closure/goog/dom/nodetype.js",
  "closure/goog/string/string.js",
  "closure/goog/asserts/asserts.js",
  "closure/goog/array/array.js",
  "closure/goog/dom/tagname.js",
  "closure/goog/object/object.js",
  "closure/goog/dom/tags.js",
  "closure/goog/string/typedstring.js",
  "closure/goog/string/const.js",
  "closure/goog/html/safestyle.js",
  "closure/goog/html/safestylesheet.js",
  "closure/goog/fs/url.js",
  "closure/goog/i18n/bidi.js",
  "closure/goog/html/safeurl.js",
  "closure/goog/html/trustedresourceurl.js",
  "closure/goog/html/safehtml.js",
  "closure/goog/html/safescript.js",
  "closure/goog/html/uncheckedconversions.js",
  "closure/goog/structs/structs.js",
  "closure/goog/structs/collection.js",
  "closure/goog/functions/functions.js",
  "closure/goog/math/math.js",
  "closure/goog/iter/iter.js",
  "closure/goog/structs/map.js",
  "closure/goog/structs/set.js",
  "closure/goog/labs/useragent/util.js",
  "closure/goog/labs/useragent/browser.js",
  "closure/goog/labs/useragent/engine.js",
  "closure/goog/labs/useragent/platform.js",
  "closure/goog/useragent/useragent.js",
  "closure/goog/debug/debug.js",
  "closure/goog/dom/browserfeature.js",
  "closure/goog/dom/safe.js",
  "closure/goog/math/coordinate.js",
  "closure/goog/math/size.js",
  "closure/goog/dom/dom.js",
  "closure/goog/structs/inversionmap.js",
  "closure/goog/i18n/graphemebreak.js",
  "closure/goog/format/format.js",
  "closure/goog/html/legacyconversions.js",
  "closure/goog/i18n/bidiformatter.js",
  "closure/goog/soy/data.js",
  "closure/goog/soy/soy.js",
  "closure/goog/string/stringbuffer.js"]

/-- The per-instance state of one `SoyCompiler` (its options of interest and
the instance fields created in its constructor, plus the support files its
vm context has executed). -/
structure CompilerInst where
  soyUtilsPath : String
  outputDir : String
  watches : List String
  templateCache : List (String × String)
  supportLoaded : List String

/-- A world with the module-global `supportFilePromises` memo and two
compiler instances. -/
structure SupportWorld where
  supportFilePromises : Option (List String)
  a : CompilerInst
  b : CompilerInst

/-- `getSupportFilePromises(soyUtilsPath)`: return the memoized list when
present (whatever `soyUtilsPath` was passed); otherwise build
`CLOSURE_PATHS.concat([soyUtilsPath])`, memoize it and return it. -/
def getSupportFilePromises (g : Option (List String)) (soyUtilsPath : String) :
    List String × Option (List String) :=
  match g with
  | some l => (l, some l)
  | none =>
    let paths := CLOSURE_PATHS ++ [soyUtilsPath]
    (paths, some paths)

/-- Instance `a` performs the first (support-loading) part of
`loadCompiledTemplateFiles`: fetch the support file list through the shared
memo and execute it into its own context. -/
def loadSupportA (w : SupportWorld) : SupportWorld :=
  let r := getSupportFilePromises w.supportFilePromises w.a.soyUtilsPath
  { w with supportFilePromises := r.2, a := { w.a with supportLoaded := r.1 } }

/-- The same operation performed by instance `b`. -/
def loadSupportB (w : SupportWorld) : SupportWorld :=
  let r := getSupportFilePromises w.supportFilePromises w.b.soyUtilsPath
  { w with supportFilePromises := r.2, b := { w.b with supportLoaded := r.1 } }

/-- Two instances with different output roots AND different soyutils
configurations, before any load. -/
def worldW : SupportWorld :=
  ⟨none,
    ⟨"/versionA/soyutils_usegoog.js", "/outA", [], [], []⟩,
    ⟨"/versionB/soyutils_usegoog.js", "/outB", [], [], []⟩⟩

/-- C9 counterexample: the two instances of `worldW` target different output
roots, yet an operation on instance `a` (loading its support code) mutates
the module-global `supportFilePromises` memo, and instance `b` observes it:
after `a` loads, `b`'s support load executes `a`'s soyutils file instead of
its own configured one, whereas without `a`'s operation it would execute its
own.  The instances therefore share observable state, refuting the claim. -/
theorem supportFilePromises_shared_counterexample :
    worldW.a.outputDir ≠ worldW.b.outputDir
    ∧ (loadSupportB (loadSupportA worldW)).b.supportLoaded
      ≠ (loadSupportB worldW).b.supportLoaded
    ∧ "/versionA/soyutils_usegoog.js" ∈ (loadSupportB (loadSupportA worldW)).b.supportLoaded
    ∧ "/versionB/soyutils_usegoog.js" ∉ (loadSupportB (loadSupportA worldW)).b.supportLoaded := by
  refine ⟨by decide, ?_, by decide, by decide⟩
  intro h
  have h2 : "/versionB/soyutils_usegoog.js"
      ∈ (loadSupportB (loadSupportA worldW)).b.supportLoaded := by
    rw [h]
    decide
  exact absurd h2 (by decide)

/-- C9 (amended): the per-instance state of two compiler instances is fully
disjoint — an operation on one instance leaves the other instance's fields
(vm contexts/template caches, watch map, loaded support record) untouched —
but the support-file promise cache is a module-level global shared between
instances: the first support load fixes the support file list for every
instance.  When both instances configure the same `soyUtilsPath` (as with
the default options) the shared memo is observationally harmless: `b` loads
the same support files whether or not `a` loaded first. -/
theorem compiler_instances_independent_amended (w : SupportWorld)
    (hsame : w.a.soyUtilsPath = w.b.soyUtilsPath) :
    (loadSupportA w).b = w.b
    ∧ (loadSupportB w).a = w.a
    ∧ (loadSupportB (loadSupportA w)).b.supportLoaded
      = (loadSupportB w).b.supportLoaded := by
  refine ⟨rfl, rfl, ?_⟩
  cases hg : w.supportFilePromises with
  | some l => simp [loadSupportA, loadSupportB, getSupportFilePromises, hg]
  | none => simp [loadSupportA, loadSupportB, getSupportFilePromises, hg, hsame]

/-- Two instances with different output roots but the same (default)
soyutils configuration. -/
def worldSameUtils : SupportWorld :=
  ⟨none,
    ⟨"/default/soyutils_usegoog.js", "/outA", [], [], []⟩,
    ⟨"/default/soyutils_usegoog.js", "/outB", [], [], []⟩⟩

theorem compiler_instances_independent_amended_witness :
    worldSameUtils.a.soyUtilsPath = worldSameUtils.b.soyUtilsPath
    ∧ (loadSupportA worldSameUtils).b = worldSameUtils.b
    ∧ (loadSupportB (loadSupportA worldSameUtils)).b.supportLoaded
      = (loadSupportB worldSameUtils).b.supportLoaded := by
  have h := compiler_instances_independent_amended worldSameUtils (by decide)
  exact ⟨by decide, h.1, h.2.2⟩

/-! ## Options merging (`SoyOptions.merge` in src/SoyOptions.js)

A `SoyOptions` instance is a JS object whose own properties are the
initialized class fields plus the `merge` arrow function; it is modelled as
an association list from property names to JS values.  `merge` destructures
`tmpDir`/`outputDir` out of its argument, assigns them (resolved) when
truthy, and then iterates the REMAINING argument keys in order, throwing on
the first unrecognized (or function-valued, unless identical) key — the
assignments already performed are not rolled back. -/

/-- The JS values options take: strings, booleans, `null`, `undefined`,
string arrays, and functions (identified by reference). -/
inductive JsVal
  | str (s : String)
  | bool (b : Bool)
  | null
  | undef
  | strList (l : List String)
  | fn (id : Nat)
deriving DecidableEq

/-- `typeof v === 'function'`. -/
def JsVal.isFunction : JsVal → Bool
  | .fn _ => true
  | _ => false

/-- JS truthiness. -/
def JsVal.truthy : JsVal → Bool
  | .str s => s != ""
  | .bool b => b
  | .null => false
  | .undef => false
  | .strList _ => true
  | .fn _ => true

/-- String coercion as used for `path.resolve`'s argument. -/
def JsVal.asString : JsVal → String
  | .str s => s
  | _ => ""

theorem lookupCache_cons (hd : String × α) (tl : List (String × α)) (k : String) :
    lookupCache (hd :: tl) k = if hd.1 == k then some hd.2 else lookupCache tl k := by
  cases hb : (hd.1 == k) with
  | true => simp [lookupCache, List.find?, hb]
  | false => simp [lookupCache, List.find?, hb]

theorem lookupCache_append_single (l : List (String × α)) (k k' : String) (v : α)
    (h : k' ≠ k) : lookupCache (l ++ [(k, v)]) k' = lookupCache l k' := by
  induction l with
  | nil =>
    rw [List.nil_append, lookupCache_cons]
    simp [lookupCache, beq_iff_eq, Ne.symm h]
  | cons hd tl ih =>
    rw [List.cons_append, lookupCache_cons, lookupCache_cons, ih]

theorem lookupCache_mapReplace (l : List (String × α)) (k k' : String) (v : α)
    (h : k' ≠ k) :
    lookupCache (l.map (fun kv => if kv.1 == k then (k, v) else kv)) k'
      = lookupCache l k' := by
  induction l with
  | nil => rfl
  | cons hd tl ih =>
    cases hbk : (hd.1 == k) with
    | true =>
      have heq : hd.1 = k := eq_of_beq hbk
      have hk2 : ((k, v).1 == k') = false := by
        show (k == k') = false
        exact beq_eq_false_iff_ne.mpr (Ne.symm h)
      have hh2 : (hd.1 == k') = false := by
        rw [heq]
        exact beq_eq_false_iff_ne.mpr (Ne.symm h)
      simp only [List.map_cons, hbk, if_true, lookupCache_cons, hk2, hh2,
        Bool.false_eq_true, if_false]
      exact ih
    | false =>
      simp only [List.map_cons, hbk, if_false, lookupCache_cons]
      cases hbk' : (hd.1 == k') with
      | true => simp [hbk']
      | false =>
        simp only [hbk', Bool.false_eq_true, if_false]
        exact ih

theorem lookupCache_cacheSet_ne (cache : List (String × α)) (k k' : String) (v : α)
    (h : k' ≠ k) : lookupCache (cacheSet cache k v) k' = lookupCache cache k' := by
  unfold cacheSet
  split
  · exact lookupCache_mapReplace cache k k' v h
  · exact lookupCache_append_single cache k k' v h

/-- `soynode: Invalid option key [<key>]`. -/
def invalidKeyMsg (key : String) : String :=
  "soynode: Invalid option key [" ++ key ++ "]"

/-- The `Object.keys(otherOpts).forEach` loop of `merge`: skip a key whose
current value is the identical function; throw the invalid-key error on a
key not present in the object or whose current value is a (different)
function; otherwise assign.  Returns the (possibly partially updated)
object and the thrown error, if any. -/
def mergeLoop (self : List (String × JsVal)) :
    List (String × JsVal) → List (String × JsVal) × Option String
  | [] => (self, none)
  | (key, v) :: rest =>
    let cur := lookupCache self key
    let isFunction := (cur.map JsVal.isFunction).getD false
    if isFunction = true ∧ cur = some v then mergeLoop self rest
    else if cur = none ∨ isFunction = true then (self, some (invalidKeyMsg key))
    else mergeLoop (cacheSet self key v) rest

/-- `SoyOptions.merge`: destructure `tmpDir` and `outputDir`, assign them
(resolved to absolute paths) when truthy, then run the loop over the
remaining keys in order. -/
def jsMerge (pathResolve : String → String) (self : List (String × JsVal))
    (opts : List (String × JsVal)) : List (String × JsVal) × Option String :=
  let tmpDir := lookupCache opts "tmpDir"
  let outputDir := lookupCache opts "outputDir"
  let otherOpts := opts.filter (fun kv => kv.1 != "tmpDir" && kv.1 != "outputDir")
  let self1 := if (tmpDir.map JsVal.truthy).getD false
    then cacheSet self "tmpDir" (.str (pathResolve ((tmpDir.getD .undef).asString)))
    else self
  let self2 := if (outputDir.map JsVal.truthy).getD false
    then cacheSet self1 "outputDir" (.str (pathResolve ((outputDir.getD .undef).asString)))
    else self1
  mergeLoop self2 otherOpts

/-- The `SoyOptions` object right after construction: every initialized
class field plus the `merge` arrow function property. -/
def defaultOptions (cwd soyJar soyUtils : String) : List (String × JsVal) :=
  [("tmpDir", .str "/tmp/soynode"),
   ("inputDir", .str cwd),
   ("outputDir", .null),
   ("precompiledDir", .null),
   ("uniqueDir", .bool true),
   ("allowDynamicRecompile", .bool false),
   ("loadCompiledTemplates", .bool true),
   ("eraseTemporaryFiles", .bool false),
   ("useClosureStyle", .bool false),
   ("shouldGenerateJsdoc", .bool false),
   ("shouldProvideRequireSoyNamespaces", .bool false),
   ("shouldProvideRequireJsFunctions", .bool false),
   ("cssHandlingScheme", .undef),
   ("classpath", .strList []),
   ("pluginModules", .strList []),
   ("contextJsPaths", .strList []),
   ("concatOutput", .bool false),
   ("concatFileName", .str "compiled"),
   ("locales", .strList []),
   ("messageFilePathFormat", .null),
   ("shouldDeclareTopLevelNamespaces", .bool true),
   ("protoFileDescriptors", .str ""),
   ("soyJarPath", .str soyJar),
   ("soyUtilsPath", .str soyUtils),
   ("merge", .fn 0)]

theorem mergeLoop_spec (pre : List (String × JsVal)) (self : List (String × JsVal))
    (badKey : String) (bv : JsVal) (post : List (String × JsVal))
    (hpre : ∀ kv ∈ pre, ∃ u, lookupCache self kv.1 = some u ∧ u.isFunction = false)
    (hprend : (pre.map Prod.fst).Nodup)
    (hbadpre : ∀ k ∈ pre.map Prod.fst, badKey ≠ k)
    (hbadAbsent : lookupCache self badKey = none) :
    (mergeLoop self (pre ++ (badKey, bv) :: post)).2 = some (invalidKeyMsg badKey)
    ∧ (∀ kv ∈ pre, lookupCache (mergeLoop self (pre ++ (badKey, bv) :: post)).1 kv.1
        = some kv.2)
    ∧ ∀ k : String, (∀ kv ∈ pre, k ≠ kv.1) →
        lookupCache (mergeLoop self (pre ++ (badKey, bv) :: post)).1 k
          = lookupCache self k := by
  induction pre generalizing self with
  | nil =>
    have habort : mergeLoop self ((badKey, bv) :: post)
        = (self, some (invalidKeyMsg badKey)) := by
      unfold mergeLoop
      simp [hbadAbsent]
    rw [List.nil_append]
    refine ⟨by rw [habort], ?_, ?_⟩
    · intro kv hkv
      cases hkv
    · intro k _
      rw [habort]
  | cons hd rest ih =>
    obtain ⟨k0, v0⟩ := hd
    obtain ⟨u, hu, hufn⟩ := hpre (k0, v0) (List.mem_cons_self _ _)
    have hk0notin : k0 ∉ rest.map Prod.fst := (List.nodup_cons.mp hprend).1
    have hstep : mergeLoop self (((k0, v0) :: rest) ++ (badKey, bv) :: post)
        = mergeLoop (cacheSet self k0 v0) (rest ++ (badKey, bv) :: post) := by
      show mergeLoop self ((k0, v0) :: (rest ++ (badKey, bv) :: post)) = _
      simp [mergeLoop, hu, hufn]
    have hbadk0 : badKey ≠ k0 := hbadpre k0 (by simp)
    have ihres := ih (cacheSet self k0 v0)
      (by
        intro kv hkv
        obtain ⟨u', hu', hufn'⟩ := hpre kv (List.mem_cons_of_mem _ hkv)
        have hne : kv.1 ≠ k0 := by
          intro h
          exact hk0notin (h ▸ List.mem_map_of_mem Prod.fst hkv)
        exact ⟨u', by rw [lookupCache_cacheSet_ne self k0 kv.1 v0 hne]; exact hu', hufn'⟩)
      ((List.nodup_cons.mp hprend).2)
      (fun k hk => hbadpre k (List.mem_cons_of_mem _ hk))
      (by rw [lookupCache_cacheSet_ne self k0 badKey v0 hbadk0]; exact hbadAbsent)
    obtain ⟨e1, e2, e3⟩ := ihres
    refine ⟨by rw [hstep]; exact e1, ?_, ?_⟩
    · intro kv hkv
      rcases List.mem_cons.mp hkv with rfl | hkv
      · have hk0ne : ∀ kv' ∈ rest, k0 ≠ kv'.1 := by
          intro kv' hkv' h
          exact hk0notin (h ▸ List.mem_map_of_mem Prod.fst hkv')
        show lookupCache (mergeLoop self (((k0, v0) :: rest) ++ (badKey, bv) :: post)).1 k0
          = some v0
        rw [hstep, e3 k0 hk0ne, lookupCache_cacheSet]
      · rw [hstep]
        exact e2 kv hkv
    · intro k hk
      rw [hstep, e3 k (fun kv hkv => hk kv (List.mem_cons_of_mem _ hkv)),
        lookupCache_cacheSet_ne self k0 k v0 (hk (k0, v0) (List.mem_cons_self _ _))]

/-- C10: `merge` is not atomic on error.  When the argument object carries,
after the destructured `tmpDir`/`outputDir`, some recognized non-function
keys (`pre`) followed by an unrecognized key (`badKey`), the merge throws
the invalid-option-key error for `badKey` — but by then `tmpDir` and
`outputDir` have already been assigned (resolved to absolute paths) and
every recognized key enumerated before the offending one has already
received its new value, so the options object is observably changed even
though `merge` failed. -/
theorem soyOptionsMerge_partial_assignment (pathResolve : String → String)
    (self0 : List (String × JsVal)) (opts : List (String × JsVal))
    (td od : String) (pre post : List (String × JsVal)) (badKey : String) (bv : JsVal)
    (htmp : lookupCache opts "tmpDir" = some (.str td)) (htd : td ≠ "")
    (hout : lookupCache opts "outputDir" = some (.str od)) (hod : od ≠ "")
    (hfilter : opts.filter (fun kv => kv.1 != "tmpDir" && kv.1 != "outputDir")
        = pre ++ (badKey, bv) :: post)
    (hprend : (pre.map Prod.fst).Nodup)
    (hbadpre : ∀ k ∈ pre.map Prod.fst, badKey ≠ k)
    (hbadAbsent : lookupCache self0 badKey = none)
    (hpre : ∀ kv ∈ pre, ∃ u, lookupCache self0 kv.1 = some u ∧ u.isFunction = false) :
    (jsMerge pathResolve self0 opts).2 = some (invalidKeyMsg badKey)
    ∧ lookupCache (jsMerge pathResolve self0 opts).1 "tmpDir" = some (.str (pathResolve td))
    ∧ lookupCache (jsMerge pathResolve self0 opts).1 "outputDir"
      = some (.str (pathResolve od))
    ∧ ∀ kv ∈ pre, lookupCache (jsMerge pathResolve self0 opts).1 kv.1 = some kv.2 := by
  have hbtd : (td != "") = true := bne_iff_ne.mpr htd
  have hbod : (od != "") = true := bne_iff_ne.mpr hod
  have hpredOf : ∀ kv : String × JsVal, kv ∈ pre ++ (badKey, bv) :: post
      → kv.1 ≠ "tmpDir" ∧ kv.1 ≠ "outputDir" := by
    intro kv hkv
    have hkvf : kv ∈ opts.filter (fun kv => kv.1 != "tmpDir" && kv.1 != "outputDir") := by
      rw [hfilter]; exact hkv
    have hpred := (List.mem_filter.mp hkvf).2
    simpa [Bool.and_eq_true, bne_iff_ne] using hpred
  have hred : jsMerge pathResolve self0 opts
      = mergeLoop (cacheSet (cacheSet self0 "tmpDir" (.str (pathResolve td)))
          "outputDir" (.str (pathResolve od)))
        (pre ++ (badKey, bv) :: post) := by
    simp [jsMerge, htmp, hout, hfilter, JsVal.truthy, hbtd, hbod, JsVal.asString]
  have hbadp := hpredOf (badKey, bv)
    (List.mem_append_right _ (List.mem_cons_self _ _))
  have hspec := mergeLoop_spec pre
    (cacheSet (cacheSet self0 "tmpDir" (.str (pathResolve td)))
      "outputDir" (.str (pathResolve od)))
    badKey bv post
    (by
      intro kv hkv
      obtain ⟨u, hu, hufn⟩ := hpre kv hkv
      have hk := hpredOf kv (List.mem_append_left _ hkv)
      refine ⟨u, ?_, hufn⟩
      rw [lookupCache_cacheSet_ne _ _ _ _ hk.2, lookupCache_cacheSet_ne _ _ _ _ hk.1]
      exact hu)
    hprend hbadpre
    (by
      rw [lookupCache_cacheSet_ne _ _ _ _ hbadp.2, lookupCache_cacheSet_ne _ _ _ _ hbadp.1]
      exact hbadAbsent)
  obtain ⟨e1, e2, e3⟩ := hspec
  have htmpframe : ∀ kv ∈ pre, ("tmpDir" : String) ≠ kv.1 := by
    intro kv hkv
    exact Ne.symm (hpredOf kv (List.mem_append_left _ hkv)).1
  have houtframe : ∀ kv ∈ pre, ("outputDir" : String) ≠ kv.1 := by
    intro kv hkv
    exact Ne.symm (hpredOf kv (List.mem_append_left _ hkv)).2
  refine ⟨by rw [hred]; exact e1, ?_, ?_, ?_⟩
  · rw [hred, e3 "tmpDir" htmpframe,
      lookupCache_cacheSet_ne _ _ _ _ (by decide : ("tmpDir" : String) ≠ "outputDir"),
      lookupCache_cacheSet]
  · rw [hred, e3 "outputDir" houtframe, lookupCache_cacheSet]
  · intro kv hkv
    rw [hred]
    exact e2 kv hkv

/-- A realistic merge argument: a new temporary directory, an output
directory, a recognized boolean option, then a misspelled option key. -/
def mergeOptsW : List (String × JsVal) :=
  [("tmpDir", .str "/custom/tmp"),
   ("outputDir", .str "/custom/out"),
   ("uniqueDir", .bool false),
   ("allowDinamicRecompile", .bool true),
   ("concatOutput", .bool true)]

theorem soyOptionsMerge_partial_assignment_witness :
    (mergeOptsW.filter (fun kv => kv.1 != "tmpDir" && kv.1 != "outputDir")
      = [("uniqueDir", JsVal.bool false)]
        ++ ("allowDinamicRecompile", JsVal.bool true) :: [("concatOutput", JsVal.bool true)])
    ∧ lookupCache (defaultOptions "/cwd" "/jar" "/soyutils") "allowDinamicRecompile" = none
    ∧ (jsMerge (fun s => s) (defaultOptions "/cwd" "/jar" "/soyutils") mergeOptsW).2
      = some (invalidKeyMsg "allowDinamicRecompile")
    ∧ lookupCache (jsMerge (fun s => s) (defaultOptions "/cwd" "/jar" "/soyutils")
        mergeOptsW).1 "tmpDir" = some (.str "/custom/tmp")
    ∧ lookupCache (jsMerge (fun s => s) (defaultOptions "/cwd" "/jar" "/soyutils")
        mergeOptsW).1 "uniqueDir" = some (.bool false) := by
  have h := soyOptionsMerge_partial_assignment (fun s => s)
    (defaultOptions "/cwd" "/jar" "/soyutils") mergeOptsW "/custom/tmp" "/custom/out"
    [("uniqueDir", JsVal.bool false)] [("concatOutput", JsVal.bool true)]
    "allowDinamicRecompile" (JsVal.bool true)
    (by decide) (by decide) (by decide) (by decide) (by decide) (by decide) (by decide)
    (by decide)
    (by
      intro kv hkv
      rw [List.mem_singleton] at hkv
      subst hkv
      exact ⟨JsVal.bool true, by decide, by decide⟩)
  exact ⟨by decide, by decide, h.1, h.2.1,
    h.2.2.2 ("uniqueDir", JsVal.bool false) (by decide)⟩

end Soynode
